import Mathlib

/-!
Shallow embedding of the `zenith-tv` core parser crate
(`src/core/parser/src/{parser,categorizer,year_detector,episode_detector,category_tree}.rs`).

Strings are modelled as `List Char` (Rust byte offsets in the source only ever
address ASCII bytes — `(`, `[`, digits, `"`, `,`, `/`, `?`, `.` — whose byte
positions coincide with character boundaries, so the character model agrees
with the byte model on every operation performed). Regex character classes
`\d` and the case-insensitive letters used by the source patterns are modelled
over ASCII, matching `is_ascii_digit` used by the manual scanner.
-/

set_option maxRecDepth 100000

/-- Unicode `White_Space` code points, as tested by Rust `char::is_whitespace`
(used by `str::trim`, `split_whitespace` and the manual episode scanner). -/
def isWsChar (c : Char) : Bool :=
  let n := c.toNat
  (9 ≤ n && n ≤ 13) || n == 32 || n == 0x85 || n == 0xA0 || n == 0x1680 ||
  (0x2000 ≤ n && n ≤ 0x200A) || n == 0x2028 || n == 0x2029 ||
  n == 0x202F || n == 0x205F || n == 0x3000

/-- Drop leading whitespace, as the left half of Rust `str::trim`. -/
def dropLeadWs (l : List Char) : List Char := l.dropWhile isWsChar

/-- Drop trailing whitespace, as the right half of Rust `str::trim`. -/
def dropTrailWs (l : List Char) : List Char := (l.reverse.dropWhile isWsChar).reverse

/-- Rust `str::trim`: remove whitespace from both ends. -/
def trimL (l : List Char) : List Char := dropLeadWs (dropTrailWs l)

/-- Rust `str::starts_with` on the character model. -/
def startsWithL (l pat : List Char) : Bool := pat.isPrefixOf l

/-- Rust `line.trim_end_matches('\r')` from `read_line`: strip all trailing CRs. -/
def stripCr (l : List Char) : List Char := (l.reverse.dropWhile (· = '\r')).reverse

/-- Helper for `linesOf`: accumulate the current line (reversed) while walking the
text; a final line without a trailing newline is still produced, and a trailing
newline does not produce an extra empty line — exactly the behaviour of the
cursor-based `M3UParser::read_line`. -/
def linesAux : List Char → List Char → List (List Char)
  | [], acc => [stripCr acc.reverse]
  | c :: rest, acc =>
    if c = '\n' then
      stripCr acc.reverse :: (if rest.isEmpty then [] else linesAux rest [])
    else linesAux rest (c :: acc)

/-- The sequence of lines `M3UParser::read_line` yields over the whole input:
none for empty input, otherwise the `\n`-separated lines with trailing `\r`s
stripped. -/
def linesOf (cs : List Char) : List (List Char) :=
  if cs.isEmpty then [] else linesAux cs []

/-! Year detector (`year_detector.rs`). -/

/-- ASCII digit test, as Rust `char::is_ascii_digit` and the regex class `\\d`
over ASCII. -/
def isDigitC (c : Char) : Bool := 48 ≤ c.toNat && c.toNat ≤ 57

/-- Does the regex `(19|20)\d{2}` (with ASCII `\d`) match at the head of `l`? -/
def isYearHead : List Char → Bool
  | c0 :: c1 :: c2 :: c3 :: _ =>
    ((c0 = '1' && c1 = '9') || (c0 = '2' && c1 = '0')) && isDigitC c2 && isDigitC c3
  | _ => false

/-- Leftmost match position of `YEAR_PATTERN`, as `Regex::find` computes it. -/
def findYearAux : List Char → Nat → Option Nat
  | [], _ => none
  | l@(_ :: rest), j => if isYearHead l then some j else findYearAux rest (j + 1)

/-- Numeric value of an ASCII digit character. -/
def digitVal (c : Char) : Nat := c.toNat - 48

/-- The `u32` value `year_str.parse()` produces for the four digits at `i`. -/
def yearValAt (cs : List Char) (i : Nat) : Nat :=
  digitVal (cs.getD i '0') * 1000 + digitVal (cs.getD (i + 1) '0') * 100 +
  digitVal (cs.getD (i + 2) '0') * 10 + digitVal (cs.getD (i + 3) '0')

/-- Result of year detection (`YearInfo` in `year_detector.rs`). -/
structure YearInfo where
  year : Nat
  cleaned_title : List Char
deriving DecidableEq

/-- Helper for `collapseWs`: the word list of Rust `str::split_whitespace`
(maximal runs of non-whitespace characters); `cur` is the reversed current word. -/
def wordsAux : List Char → List Char → List (List Char)
  | cur, [] => if cur.isEmpty then [] else [cur.reverse]
  | cur, c :: rest =>
    if isWsChar c then
      (if cur.isEmpty then wordsAux [] rest else cur.reverse :: wordsAux [] rest)
    else wordsAux (c :: cur) rest

/-- Join words with single spaces, as `Vec::join(" ")`. -/
def joinWords : List (List Char) → List Char
  | [] => []
  | w :: ws =>
    w ++ (match ws with
          | [] => []
          | _ :: _ => ' ' :: joinWords ws)

/-- The cleanup step of `detect_year`:
`cleaned.trim().split_whitespace().collect::<Vec<_>>().join(" ")` (the leading
`trim` is absorbed by `split_whitespace`, which already ignores boundary
whitespace). -/
def collapseWs (cs : List Char) : List Char := joinWords (wordsAux [] cs)

/-- `year_detector::detect_year`: find the leftmost `(19|20)\d{2}` match,
widen the removal span by a single adjacent `(`/`[` before and `)`/`]` after,
remove the span, and normalise whitespace. -/
def detect_year (cs : List Char) : Option YearInfo :=
  match findYearAux cs 0 with
  | none => none
  | some year_start =>
    let year_end := year_start + 4
    let clean_start :=
      if 0 < year_start ∧ (cs.getD (year_start - 1) ' ' = '(' ∨ cs.getD (year_start - 1) ' ' = '[')
      then year_start - 1 else year_start
    let clean_end :=
      if year_end < cs.length ∧ (cs.getD year_end ' ' = ')' ∨ cs.getD year_end ' ' = ']')
      then year_end + 1 else year_end
    some ⟨yearValAt cs year_start, collapseWs (cs.take clean_start ++ cs.drop clean_end)⟩

/-! Episode detector (`episode_detector.rs`). -/

/-- Episode information (`Episode` in `episode_detector.rs`). -/
structure Episode where
  series_name : List Char
  season : Nat
  episode : Nat
deriving DecidableEq

/-- The `while series_name_end > 0 && is_whitespace(chars[series_name_end - 1])`
loop of `detect_episode_manual`: step back over whitespace ending at `j`. -/
def backWs (cs : List Char) : Nat → Nat
  | 0 => 0
  | j + 1 => if isWsChar (cs.getD j ' ') then backWs cs j else j + 1

/-- The season branch of one iteration of the `detect_episode_manual` loop:
on `S`/`s` with no season recorded yet, look at the next one or two characters
(`'\x00'` standing for the out-of-bounds `'\0'` of the source) and record a
two-digit-else-one-digit season plus the series-name boundary `backWs`. -/
def scanSeasonStep (cs : List Char) (i : Nat) (season : Option Nat) (sne : Nat)
    (ch : Char) (rest : List Char) : Option Nat × Nat :=
  if season = none ∧ (ch = 'S' ∨ ch = 's') then
    match rest with
    | [] => (season, sne)
    | s0 :: rest2 =>
      if isDigitC s0 = true ∧ isDigitC (rest2.headD '\x00') = true then
        (some (digitVal s0 * 10 + digitVal (rest2.headD '\x00')), backWs cs i)
      else if isDigitC s0 = true then (some (digitVal s0), backWs cs i)
      else (season, sne)
  else (season, sne)

/-- The episode branch of one iteration of the `detect_episode_manual` loop:
on `E`/`e` with a season recorded and no episode yet, parse a
two-digit-else-one-digit episode; `some` means the loop breaks. -/
def scanEpisodeTry (season episode : Option Nat) (ch : Char) (rest : List Char) :
    Option Nat :=
  if season.isSome = true ∧ episode = none ∧ (ch = 'E' ∨ ch = 'e') then
    match rest with
    | [] => none
    | e0 :: rest2 =>
      if isDigitC e0 = true ∧ isDigitC (rest2.headD '\x00') = true then
        some (digitVal e0 * 10 + digitVal (rest2.headD '\x00'))
      else if isDigitC e0 = true then some (digitVal e0)
      else none
  else none

/-- The manual scanning loop of `detect_episode_manual`. `cs` is the full title,
the second argument is the unscanned suffix `cs.drop i`, and the state mirrors
the Rust mutables `season`, `episode`, `series_name_end`. A successful episode
parse breaks out immediately, returning the final state. -/
def scanAux (cs : List Char) : List Char → Nat → Option Nat → Option Nat → Nat →
    Option Nat × Option Nat × Nat
  | [], _, season, episode, sne => (season, episode, sne)
  | ch :: rest, i, season, episode, sne =>
    let s := scanSeasonStep cs i season sne ch rest
    match scanEpisodeTry s.1 episode ch rest with
    | some ev => (s.1, some ev, s.2)
    | none => scanAux cs rest (i + 1) s.1 episode s.2

/-- `episode_detector::detect_episode_manual` (Strategy A, the forward scan). -/
def detect_episode_manual (cs : List Char) : Option Episode :=
  match scanAux cs cs 0 none none 0 with
  | (some s, some e, sne) =>
    some ⟨if 0 < sne then trimL (cs.take sne) else cs, s, e⟩
  | _ => none

/-- Case-insensitive literal matcher for the regex fallbacks: consume `pat`
(given in lowercase) from the head of `l`, returning the remainder. -/
def ciLit : List Char → List Char → Option (List Char)
  | l, [] => some l
  | [], _ :: _ => none
  | c :: r, p :: ps => if c.toLower = p then ciLit r ps else none

/-- Continuation of pattern 1 after the season digits: `\s*e\s*(\d{1,2})`
(the trailing `\d{1,2}` is greedy: two digits if available, else one). -/
def p1Tail (sv : Nat) (r : List Char) : Option (Nat × Nat) :=
  match r.dropWhile isWsChar with
  | e :: r2 =>
    if e = 'E' ∨ e = 'e' then
      match r2.dropWhile isWsChar with
      | d1 :: r4 =>
        if isDigitC d1 = true then
          some (sv, if isDigitC (r4.headD '\x00') = true
                    then digitVal d1 * 10 + digitVal (r4.headD '\x00')
                    else digitVal d1)
        else none
      | [] => none
    else none
  | [] => none

/-- Pattern 1, `(?i)s\s*(\d{1,2})\s*e\s*(\d{1,2})`, anchored at the head of `l`
with leftmost-first (backtracking) semantics: the greedy `\d{1,2}` first tries
two digits and falls back to one if the tail fails. A `\s*` between disjoint
character classes can only succeed by consuming the maximal whitespace run. -/
def p1At : List Char → Option (Nat × Nat)
  | [] => none
  | c :: rest =>
    if c = 'S' ∨ c = 's' then
      match rest.dropWhile isWsChar with
      | d1 :: r2 =>
        if isDigitC d1 = true then
          match r2 with
          | d2 :: r3 =>
            if isDigitC d2 = true then
              (p1Tail (digitVal d1 * 10 + digitVal d2) r3).orElse
                (fun _ => p1Tail (digitVal d1) r2)
            else p1Tail (digitVal d1) r2
          | [] => p1Tail (digitVal d1) r2
        else none
      | [] => none
    else none

/-- Continuation of pattern 2 after the season digits: `x(\d{1,2})`,
case-insensitive `x`. -/
def p2Tail (sv : Nat) (r : List Char) : Option (Nat × Nat) :=
  match r with
  | x :: r2 =>
    if x = 'x' ∨ x = 'X' then
      match r2 with
      | d1 :: r3 =>
        if isDigitC d1 = true then
          some (sv, if isDigitC (r3.headD '\x00') = true
                    then digitVal d1 * 10 + digitVal (r3.headD '\x00')
                    else digitVal d1)
        else none
      | [] => none
    else none
  | [] => none

/-- Pattern 2, `(?i)(\d{1,2})x(\d{1,2})`, anchored at the head of `l`. -/
def p2At : List Char → Option (Nat × Nat)
  | [] => none
  | d1 :: r1 =>
    if isDigitC d1 = true then
      match r1 with
      | d2 :: r2 =>
        if isDigitC d2 = true then
          (p2Tail (digitVal d1 * 10 + digitVal d2) r2).orElse
            (fun _ => p2Tail (digitVal d1) r1)
        else p2Tail (digitVal d1) r1
      | [] => p2Tail (digitVal d1) r1
    else none

/-- Continuation of pattern 3 after the season digits:
`\s*episode\s*(\d{1,2})`. -/
def p3Tail (sv : Nat) (r : List Char) : Option (Nat × Nat) :=
  match ciLit (r.dropWhile isWsChar) ("episode".data) with
  | some r2 =>
    match r2.dropWhile isWsChar with
    | d1 :: r3 =>
      if isDigitC d1 = true then
        some (sv, if isDigitC (r3.headD '\x00') = true
                  then digitVal d1 * 10 + digitVal (r3.headD '\x00')
                  else digitVal d1)
      else none
    | [] => none
  | none => none

/-- Pattern 3, `(?i)season\s*(\d{1,2})\s*episode\s*(\d{1,2})`, anchored at the
head of `l`. -/
def p3At (l : List Char) : Option (Nat × Nat) :=
  match ciLit l ("season".data) with
  | none => none
  | some r1 =>
    match r1.dropWhile isWsChar with
    | d1 :: r3 =>
      if isDigitC d1 = true then
        match r3 with
        | d2 :: r4 =>
          if isDigitC d2 = true then
            (p3Tail (digitVal d1 * 10 + digitVal d2) r4).orElse
              (fun _ => p3Tail (digitVal d1) r3)
          else p3Tail (digitVal d1) r3
        | [] => p3Tail (digitVal d1) r3
      else none
    | [] => none

/-- Final digits of pattern 4: `\s*(\d{1,2})`; the season defaults to 1
(`idx == 3` branch of `detect_episode_regex`). -/
def p4Digits (r : List Char) : Option (Nat × Nat) :=
  match r.dropWhile isWsChar with
  | d1 :: r2 =>
    if isDigitC d1 = true then
      some (1, if isDigitC (r2.headD '\x00') = true
               then digitVal d1 * 10 + digitVal (r2.headD '\x00')
               else digitVal d1)
    else none
  | [] => none

/-- Continuation of pattern 4 after `ep(isode)?`: `\.?\s*(\d{1,2})` (the
optional dot is greedy, with fallback). -/
def p4Tail (r : List Char) : Option (Nat × Nat) :=
  match r with
  | '.' :: r2 => (p4Digits r2).orElse (fun _ => p4Digits r)
  | _ => p4Digits r

/-- Pattern 4, `(?i)ep(?:isode)?\.?\s*(\d{1,2})`, anchored at the head of `l`;
the greedy optional `isode` is tried first with fallback. -/
def p4At : List Char → Option (Nat × Nat)
  | c1 :: c2 :: r =>
    if (c1 = 'e' ∨ c1 = 'E') ∧ (c2 = 'p' ∨ c2 = 'P') then
      match ciLit r ("isode".data) with
      | some r2 => (p4Tail r2).orElse (fun _ => p4Tail r)
      | none => p4Tail r
    else none
  | _ => none

/-- Leftmost-match search: try the anchored matcher `f` at each start position
from left to right, as `Regex::captures` does; returns the match start and the
two captured numbers. -/
def findPat (f : List Char → Option (Nat × Nat)) : List Char → Nat → Option (Nat × Nat × Nat)
  | [], _ => none
  | l@(_ :: rest), j =>
    match f l with
    | some (s, e) => some (j, s, e)
    | none => findPat f rest (j + 1)

/-- Series-name extraction of `detect_episode_regex`: everything before the
match start, trimmed; the full title if that is empty. -/
def mkRegexEpisode (cs : List Char) (j s e : Nat) : Episode :=
  let sn := trimL (cs.take j)
  ⟨if sn.isEmpty then cs else sn, s, e⟩

/-- The result `detect_episode_regex` produces from pattern 1 alone (the first
entry of `PATTERNS`). -/
def p1Result (cs : List Char) : Option Episode :=
  match findPat p1At cs 0 with
  | some (j, s, e) => some (mkRegexEpisode cs j s e)
  | none => none

/-- `episode_detector::detect_episode_regex` (Strategy B): the four patterns in
their fixed order, first match wins. -/
def detect_episode_regex (cs : List Char) : Option Episode :=
  match findPat p1At cs 0 with
  | some (j, s, e) => some (mkRegexEpisode cs j s e)
  | none =>
    match findPat p2At cs 0 with
    | some (j, s, e) => some (mkRegexEpisode cs j s e)
    | none =>
      match findPat p3At cs 0 with
      | some (j, s, e) => some (mkRegexEpisode cs j s e)
      | none =>
        match findPat p4At cs 0 with
        | some (j, s, e) => some (mkRegexEpisode cs j s e)
        | none => none

/-- `episode_detector::detect_episode`: manual scan first, regex fallback. -/
def detect_episode (cs : List Char) : Option Episode :=
  match detect_episode_manual cs with
  | some ep => some ep
  | none => detect_episode_regex cs

/-! Categorizer (`categorizer.rs`). -/

/-- Content category (`Category` in `categorizer.rs`). -/
inductive Category where
  | liveStream
  | series
  | movie
deriving DecidableEq

/-- Result of item categorization (`CategorizedItem` in `categorizer.rs`). -/
structure CategorizedItem where
  category : Category
  cleaned_title : List Char
  year : Option Nat
  season : Option Nat
  episode : Option Nat
deriving DecidableEq

/-- Rust `str::rfind(char)`: index of the last occurrence. -/
def rfindIdx (cs : List Char) (c : Char) : Option Nat :=
  match cs with
  | [] => none
  | a :: rest =>
    match rfindIdx rest c with
    | some i => some (i + 1)
    | none => if a = c then some 0 else none

/-- `categorizer::is_live_stream`: the segment after the last `/`, truncated at
the first `?`, contains no dot. No slash at all means not a live stream. -/
def is_live_stream (url : List Char) : Bool :=
  match rfindIdx url '/' with
  | some last_slash =>
    let filename := url.drop (last_slash + 1)
    let filename_without_query :=
      match filename.findIdx? (· = '?') with
      | some query_pos => filename.take query_pos
      | none => filename
    ! filename_without_query.contains '.'
  | none => false

/-- `categorizer::categorize_item`: live-stream check, then year extraction,
then episode detection, defaulting to movie. -/
def categorize_item (title url : List Char) : CategorizedItem :=
  if is_live_stream url then
    ⟨.liveStream, title, none, none, none⟩
  else
    let wy : List Char × Option Nat :=
      match detect_year title with
      | some year_info => (year_info.cleaned_title, some year_info.year)
      | none => (title, none)
    match detect_episode wy.1 with
    | some episode_info =>
      ⟨.series, episode_info.series_name, wy.2, some episode_info.season, some episode_info.episode⟩
    | none => ⟨.movie, wy.1, wy.2, none, none⟩

/-! Playlist reader (`parser.rs`). -/

/-- A parsed playlist entry as `M3UParser::parse_entry` constructs it: the raw
post-comma title, trimmed URL, extracted attributes, and the full result of
`categorize_item` stored in the `category` field (as the `let category =
categorize_item(&title, url)` binding in `parse_entry` does). -/
structure ParsedEntry where
  title : List Char
  url : List Char
  group : List Char
  logo : Option (List Char)
  category : CategorizedItem
deriving DecidableEq

/-- Rust `str::find(&str)`: index of the first occurrence of `pat`. -/
def findSub (pat : List Char) : List Char → Option Nat
  | [] => if pat.isPrefixOf ([] : List Char) then some 0 else none
  | l@(_ :: rest) => if pat.isPrefixOf l then some 0 else (findSub pat rest).map (· + 1)

/-- The `#EXTINF` metadata-line token. -/
def extinfTok : List Char := "#EXTINF".data

/-- The `#EXTM3U` header token. -/
def headerTok : List Char := "#EXTM3U".data

/-- `M3UParser::parse_entry`: title after the last comma (no comma means the
entry is dropped), `tvg-logo`/`group-title` attribute values delimited by the
next `"` (10 and 13 are the lengths of the attribute-name-plus-quote tokens),
then categorization. -/
def parse_entry (metadata url0 : List Char) : Option ParsedEntry :=
  let url := trimL url0
  match rfindIdx metadata ',' with
  | none => none
  | some comma_pos =>
    let title := trimL (metadata.drop (comma_pos + 1))
    let attrs := metadata.take comma_pos
    let logo : Option (List Char) :=
      match findSub ("tvg-logo=\"".data) attrs with
      | some logo_start =>
        let r := attrs.drop (logo_start + 10)
        match r.findIdx? (· = '"') with
        | some logo_end => some (r.take logo_end)
        | none => none
      | none => none
    let group : List Char :=
      match findSub ("group-title=\"".data) attrs with
      | some group_start =>
        let r := attrs.drop (group_start + 13)
        match r.findIdx? (· = '"') with
        | some group_end => r.take group_end
        | none => []
      | none => []
    some ⟨title, url, group, logo, categorize_item title url⟩

/-- The metadata-search loop of `M3UParser::read_entry`: skip every line whose
trimmed form does not start with `#EXTINF` (blank lines, comments, and stray
non-comment lines alike) until a metadata line is found. -/
def findMeta : List (List Char) → Option (List Char × List (List Char))
  | [] => none
  | l :: rest =>
    if startsWithL (trimL l) extinfTok then some (l, rest) else findMeta rest

/-- The URL-search loop of `M3UParser::read_entry`: skip blank lines and lines
starting with `#` until a non-blank non-comment line is found. -/
def findUrlLine : List (List Char) → Option (List Char × List (List Char))
  | [] => none
  | l :: rest =>
    let t := trimL l
    if ¬ t.isEmpty ∧ t.headD ' ' ≠ '#' then some (l, rest) else findUrlLine rest

/-- `M3UParser::read_entry`: a metadata line paired with the following URL
line, with the remaining lines; `none` when the input is exhausted first. -/
def read_entry (ls : List (List Char)) : Option ((List Char × List Char) × List (List Char)) :=
  match findMeta ls with
  | none => none
  | some (m, r1) =>
    match findUrlLine r1 with
    | none => none
    | some (u, r2) => some ((m, u), r2)

theorem findMeta_length : ∀ {ls : List (List Char)} {m : List Char} {r : List (List Char)},
    findMeta ls = some (m, r) → r.length < ls.length := by
  intro ls
  induction ls with
  | nil => intro m r h; simp [findMeta] at h
  | cons l rest ih =>
    intro m r h
    simp only [findMeta] at h
    split at h
    all_goals first
      | exact Nat.lt_trans (ih h) (Nat.lt_succ_self _)
      | (simp only [Option.some.injEq, Prod.mk.injEq] at h
         obtain ⟨-, h2⟩ := h
         subst h2
         simp)

theorem findUrlLine_length : ∀ {ls : List (List Char)} {u : List Char} {r : List (List Char)},
    findUrlLine ls = some (u, r) → r.length < ls.length := by
  intro ls
  induction ls with
  | nil => intro u r h; simp [findUrlLine] at h
  | cons l rest ih =>
    intro u r h
    simp only [findUrlLine] at h
    split at h
    all_goals first
      | exact Nat.lt_trans (ih h) (Nat.lt_succ_self _)
      | (simp only [Option.some.injEq, Prod.mk.injEq] at h
         obtain ⟨-, h2⟩ := h
         subst h2
         simp)

theorem read_entry_length : ∀ {ls : List (List Char)} {mu : List Char × List Char}
    {r : List (List Char)}, read_entry ls = some (mu, r) → r.length < ls.length := by
  intro ls mu r h
  unfold read_entry at h
  cases hm : findMeta ls with
  | none => simp only [hm] at h; cases h
  | some p =>
    obtain ⟨m, r1⟩ := p
    simp only [hm] at h
    cases hu : findUrlLine r1 with
    | none => simp only [hu] at h; cases h
    | some q =>
      obtain ⟨u, r2⟩ := q
      simp only [hu, Option.some.injEq, Prod.mk.injEq] at h
      obtain ⟨-, h2⟩ := h
      subst h2
      exact Nat.lt_trans (findUrlLine_length hu) (findMeta_length hm)

/-- The entry-reading loop of `M3UParser::parse`: repeatedly read an entry and
parse it, dropping entries `parse_entry` rejects. -/
def parseItems (ls : List (List Char)) : List ParsedEntry :=
  match h : read_entry ls with
  | none => []
  | some ((m, u), rest) =>
    match parse_entry m u with
    | some item => item :: parseItems rest
    | none => parseItems rest
termination_by ls.length
decreasing_by all_goals exact read_entry_length h

/-- `M3UParser::parse`: verify the header on the first line, then read entries
to the end of input. The two `Err` cases are exactly the two of the source. -/
def parse (s : String) : Except String (List ParsedEntry) :=
  match linesOf s.data with
  | [] => .error "Empty file"
  | l :: rest =>
    if startsWithL (trimL l) headerTok then .ok (parseItems rest)
    else .error "Invalid M3U file: missing #EXTM3U header"

/-- Structural (fuel-free) reformulation of the entry loop used to evaluate
`parseItems` on concrete inputs: the state is the pending metadata line, if
one has been found and its URL line is still being searched for. Proven
equivalent to `parseItems` in `parseItems_eq_loop`. -/
def parseLoop : List (List Char) → Option (List Char) → List ParsedEntry
  | [], _ => []
  | l :: rest, none =>
    if startsWithL (trimL l) extinfTok then parseLoop rest (some l)
    else parseLoop rest none
  | l :: rest, some m =>
    let t := trimL l
    if ¬ t.isEmpty ∧ t.headD ' ' ≠ '#' then
      match parse_entry m l with
      | some item => item :: parseLoop rest none
      | none => parseLoop rest none
    else parseLoop rest (some m)

/-! Category tree (`category_tree.rs`, item shape from `lib.rs`). -/

/-- A parsed M3U item (`M3UItem` in `lib.rs`). -/
structure M3UItem where
  title : List Char
  url : List Char
  group : List Char
  logo : Option (List Char)
  category : Category
  year : Option Nat
  season : Option Nat
  episode : Option Nat
deriving DecidableEq

/-- A category node (`CategoryNode` in `category_tree.rs`). -/
structure CategoryNode where
  name : List Char
  items : List M3UItem
deriving DecidableEq

/-- The category tree (`CategoryTree` in `category_tree.rs`). -/
structure CategoryTree where
  movies : List CategoryNode
  series : List CategoryNode
  live_streams : List CategoryNode
deriving DecidableEq

/-- `HashMap::entry(group).or_default().push(item)` on an association-list
model of the grouping map: append to the existing bucket, or create one. -/
def insertGrouped (m : List (List Char × List M3UItem)) (g : List Char) (it : M3UItem) :
    List (List Char × List M3UItem) :=
  match m with
  | [] => [(g, [it])]
  | (k, its) :: rest =>
    if k = g then (k, its ++ [it]) :: rest else (k, its) :: insertGrouped rest g it

/-- The three grouping maps of `CategoryTree::build`. -/
structure GroupMaps where
  movies_map : List (List Char × List M3UItem)
  series_map : List (List Char × List M3UItem)
  live_map : List (List Char × List M3UItem)

/-- One iteration of the `for item in items` loop of `CategoryTree::build`:
normalise an empty group to `Uncategorized` and push into the map matching the
item's category. -/
def buildStep (maps : GroupMaps) (item : M3UItem) : GroupMaps :=
  let group := if item.group.isEmpty then "Uncategorized".data else item.group
  match item.category with
  | .movie => { maps with movies_map := insertGrouped maps.movies_map group item }
  | .series => { maps with series_map := insertGrouped maps.series_map group item }
  | .liveStream => { maps with live_map := insertGrouped maps.live_map group item }

/-- `CategoryTree::build`: group all items, then turn each bucket into a
`CategoryNode` (the association list keeps first-seen key order; the source's
`HashMap` iteration order is unspecified, and no claim depends on node order
at build time). -/
def CategoryTree.build (items : List M3UItem) : CategoryTree :=
  let maps := items.foldl buildStep ⟨[], [], []⟩
  ⟨maps.movies_map.map (fun p => ⟨p.1, p.2⟩),
   maps.series_map.map (fun p => ⟨p.1, p.2⟩),
   maps.live_map.map (fun p => ⟨p.1, p.2⟩)⟩

/-- All items stored in a tree, across the three collections. -/
def allTreeItems (t : CategoryTree) : List M3UItem :=
  (t.movies.map CategoryNode.items).flatten ++
  (t.series.map CategoryNode.items).flatten ++
  (t.live_streams.map CategoryNode.items).flatten

/-- Lexicographic comparison of per-character-lowercased names:
`a.name.to_lowercase().cmp(&b.name.to_lowercase())` (ASCII case mapping). -/
def cmpLower : List Char → List Char → Ordering
  | [], [] => .eq
  | [], _ :: _ => .lt
  | _ :: _, [] => .gt
  | a :: ra, b :: rb =>
    if (a.toLower).toNat < (b.toLower).toNat then .lt
    else if (b.toLower).toNat < (a.toLower).toNat then .gt
    else cmpLower ra rb

/-- The comparator passed to `sort_by` in `CategoryTree::get_movies`: sticky
names first, then case-insensitive name order. -/
def cmpNodes (sticky : List (List Char)) (a b : CategoryNode) : Ordering :=
  match sticky.contains a.name, sticky.contains b.name with
  | true, false => .lt
  | false, true => .gt
  | _, _ => cmpLower a.name b.name

/-- `CategoryTree::get_movies`: drop hidden names, then stable-sort by
`cmpNodes` (Rust `Vec::sort_by` is a stable sort; `insertionSort` is stable,
so the two agree for this total preorder). -/
def get_movies (t : CategoryTree) (sticky hidden : List (List Char)) : List CategoryNode :=
  List.insertionSort (fun a b => cmpNodes sticky a b ≠ .gt)
    (t.movies.filter (fun c => ! hidden.contains c.name))

/-! Support definitions used by the verification statements. -/

/-- All items stored in one grouping map, bucket by bucket. -/
def bucketItems (m : List (List Char × List M3UItem)) : List M3UItem :=
  (m.map Prod.snd).flatten

/-- All items stored across the three grouping maps. -/
def flatMaps (maps : GroupMaps) : List M3UItem :=
  bucketItems maps.movies_map ++ bucketItems maps.series_map ++ bucketItems maps.live_map

/-- Value of a one- or two-digit capture, as both detection strategies read it
(two digits if two are present, else one). -/
def digitsVal2 : List Char → Nat
  | [a] => digitVal a
  | [a, b] => digitVal a * 10 + digitVal b
  | _ => 0

/-- Spec-side predicate: position `j` of `cs` carries a bracket- or
parenthesis-wrapped year (`(`/`[` immediately before a `(19|20)\d{2}` match,
`)`/`]` immediately after). Used to state the year-detector claim. -/
def wrappedYearAt (cs : List Char) (j : Nat) : Bool :=
  decide (1 ≤ j) && isYearHead (cs.drop j) &&
  (cs.getD (j - 1) ' ' == '(' || cs.getD (j - 1) ' ' == '[') &&
  (cs.getD (j + 4) ' ' == ')' || cs.getD (j + 4) ' ' == ']')

/-- Spec-side predicate: `cs` contains a `(19|20)\d{2}` occurrence somewhere.
Matches the reachability of `YEAR_PATTERN` as a substring property. -/
def hasYearSub (cs : List Char) : Prop := ∃ k, isYearHead (cs.drop k) = true

/-- Example node for the sorting claim. -/
def actionNode : CategoryNode := ⟨"Action".data, []⟩

/-- Example node for the sorting claim. -/
def comedyNode : CategoryNode := ⟨"Comedy".data, []⟩

/-- Example node for the sorting claim. -/
def dramaNode : CategoryNode := ⟨"Drama".data, []⟩

/-- Example tree holding the three example movie nodes (in scrambled order, so
the view order is forced by the comparator, not by the input order). -/
def exampleTree : CategoryTree := ⟨[dramaNode, actionNode, comedyNode], [], []⟩

/-! Shared lemmas about the reader. -/

theorem read_entry_none_of_meta {ls : List (List Char)} (hm : findMeta ls = none) :
    read_entry ls = none := by
  unfold read_entry; simp only [hm]

theorem read_entry_none_of_url {ls : List (List Char)} {m : List Char} {r1 : List (List Char)}
    (hm : findMeta ls = some (m, r1)) (hu : findUrlLine r1 = none) :
    read_entry ls = none := by
  unfold read_entry; simp only [hm, hu]

theorem read_entry_some_of {ls : List (List Char)} {m u : List Char} {r1 r2 : List (List Char)}
    (hm : findMeta ls = some (m, r1)) (hu : findUrlLine r1 = some (u, r2)) :
    read_entry ls = some ((m, u), r2) := by
  unfold read_entry; simp only [hm, hu]

theorem read_entry_inv {ls : List (List Char)} {m u : List Char} {r : List (List Char)}
    (h : read_entry ls = some ((m, u), r)) :
    ∃ r1, findMeta ls = some (m, r1) ∧ findUrlLine r1 = some (u, r) := by
  unfold read_entry at h
  cases hm : findMeta ls with
  | none => simp only [hm] at h; cases h
  | some p =>
    obtain ⟨m1, r1⟩ := p
    simp only [hm] at h
    cases hu : findUrlLine r1 with
    | none => simp only [hu] at h; cases h
    | some q =>
      obtain ⟨u1, r2⟩ := q
      simp only [hu, Option.some.injEq, Prod.mk.injEq] at h
      obtain ⟨⟨h1, h2⟩, h3⟩ := h
      subst h1; subst h2; subst h3
      exact ⟨r1, rfl, hu⟩

theorem parseLoop_meta_none : ∀ {ls : List (List Char)},
    findMeta ls = none → parseLoop ls none = [] := by
  intro ls
  induction ls with
  | nil => intro h; rfl
  | cons l rest ih =>
    intro h
    simp only [findMeta] at h
    simp only [parseLoop]
    by_cases hb : startsWithL (trimL l) extinfTok = true
    · rw [if_pos hb] at h; cases h
    · rw [if_neg hb] at h
      rw [if_neg hb]
      exact ih h

theorem parseLoop_meta_some : ∀ {ls : List (List Char)} {m : List Char} {r : List (List Char)},
    findMeta ls = some (m, r) → parseLoop ls none = parseLoop r (some m) := by
  intro ls
  induction ls with
  | nil => intro m r h; simp [findMeta] at h
  | cons l rest ih =>
    intro m r h
    simp only [findMeta] at h
    simp only [parseLoop]
    by_cases hb : startsWithL (trimL l) extinfTok = true
    · rw [if_pos hb] at h
      simp only [Option.some.injEq, Prod.mk.injEq] at h
      obtain ⟨h1, h2⟩ := h
      rw [if_pos hb, h1, h2]
    · rw [if_neg hb] at h
      rw [if_neg hb]
      exact ih h

theorem parseLoop_url_none : ∀ {r : List (List Char)} {m : List Char},
    findUrlLine r = none → parseLoop r (some m) = [] := by
  intro r
  induction r with
  | nil => intro m h; rfl
  | cons l rest ih =>
    intro m h
    simp only [findUrlLine] at h
    simp only [parseLoop]
    by_cases hb : ¬ (trimL l).isEmpty = true ∧ ¬ (trimL l).headD ' ' = '#'
    · rw [if_pos hb] at h; cases h
    · rw [if_neg hb] at h
      rw [if_neg hb]
      exact ih h

theorem parseLoop_url_some : ∀ {r : List (List Char)} {u : List Char}
    {r2 : List (List Char)} {m : List Char},
    findUrlLine r = some (u, r2) →
    parseLoop r (some m) =
      (match parse_entry m u with
       | some item => item :: parseLoop r2 none
       | none => parseLoop r2 none) := by
  intro r
  induction r with
  | nil => intro u r2 m h; simp [findUrlLine] at h
  | cons l rest ih =>
    intro u r2 m h
    simp only [findUrlLine] at h
    simp only [parseLoop]
    by_cases hb : ¬ (trimL l).isEmpty = true ∧ ¬ (trimL l).headD ' ' = '#'
    · rw [if_pos hb] at h
      simp only [Option.some.injEq, Prod.mk.injEq] at h
      obtain ⟨h1, h2⟩ := h
      rw [if_pos hb, h1, h2]
    · rw [if_neg hb] at h
      rw [if_neg hb]
      exact ih h

theorem parseItems_eq_loop : ∀ (ls : List (List Char)), parseItems ls = parseLoop ls none := by
  have H : ∀ (n : Nat) (ls : List (List Char)), ls.length ≤ n →
      parseItems ls = parseLoop ls none := by
    intro n
    induction n with
    | zero =>
      intro ls hle
      have hnil : ls = [] := List.eq_nil_of_length_eq_zero (Nat.le_zero.mp hle)
      subst hnil
      unfold parseItems; rfl
    | succ n ih =>
      intro ls hle
      rw [parseItems]
      split
      next hre =>
        cases hm : findMeta ls with
        | none => exact (parseLoop_meta_none hm).symm
        | some p =>
          obtain ⟨m, r1⟩ := p
          cases hu : findUrlLine r1 with
          | none =>
            rw [parseLoop_meta_some hm]
            exact (parseLoop_url_none hu).symm
          | some q =>
            obtain ⟨u, r2⟩ := q
            rw [read_entry_some_of hm hu] at hre
            cases hre
      next m u rest hre =>
        have hlen : rest.length < ls.length := read_entry_length hre
        obtain ⟨r1, hm, hu⟩ := read_entry_inv hre
        rw [parseLoop_meta_some hm, parseLoop_url_some hu]
        have heq := ih rest (by omega)
        cases hpe : parse_entry m u with
        | none => simp only [hpe, heq]
        | some item => simp only [hpe, heq]
  exact fun ls => H ls.length ls le_rfl


theorem linesAux_ne_nil : ∀ (cs acc : List Char), linesAux cs acc ≠ [] := by
  intro cs
  induction cs with
  | nil => intro acc; simp [linesAux]
  | cons c rest ih =>
    intro acc
    simp only [linesAux]
    by_cases hc : c = '\n'
    · rw [if_pos hc]; simp
    · rw [if_neg hc]; exact ih _

theorem linesOf_eq_nil_iff (cs : List Char) : linesOf cs = [] ↔ cs = [] := by
  unfold linesOf
  by_cases hc : cs.isEmpty = true
  · rw [if_pos hc]
    simp [List.isEmpty_iff.mp hc]
  · rw [if_neg hc]
    constructor
    · intro h; exact absurd h (linesAux_ne_nil cs [])
    · intro h; exact absurd (by simp [h] : cs.isEmpty = true) hc

theorem string_eq_empty_iff (s : String) : s = "" ↔ s.data = [] := by
  cases s with
  | mk data =>
    constructor
    · intro h
      rw [h]
    · intro h
      have h2 : data = [] := h
      subst h2
      rfl

theorem rfindIdx_none_of_not_contains {l : List Char} {c : Char}
    (h : l.contains c = false) : rfindIdx l c = none := by
  induction l with
  | nil => rfl
  | cons a rest ih =>
    simp only [List.contains_cons, Bool.or_eq_false_iff] at h
    obtain ⟨h1, h2⟩ := h
    simp only [rfindIdx, ih h2]
    rw [if_neg]
    intro hac
    rw [hac] at h1
    simp at h1

/-- C10: while searching for the next metadata line, the reader silently skips
every line whose trimmed form does not begin with `#EXTINF` — including
non-blank non-comment lines such as an orphan URL line — and such a line never
produces an item and never causes an error: reading entries from the input
with the line present is identical to reading them without it. -/
theorem read_entry_skips_nonmeta_line (l : List Char) (rest : List (List Char))
    (h : startsWithL (trimL l) extinfTok = false) :
    read_entry (l :: rest) = read_entry rest := by
  unfold read_entry
  have hm : findMeta (l :: rest) = findMeta rest := by
    simp [findMeta, h]
  rw [hm]

theorem read_entry_skips_nonmeta_line_witness :
    read_entry ["http://orphan.example/stream.mkv".data] = read_entry [] :=
  read_entry_skips_nonmeta_line ("http://orphan.example/stream.mkv".data) [] (by decide)

/-- C9: a URL with no `/` character is never detected as a live stream (the
`rfind('/')` lookup fails and `is_live_stream` returns `false`), so the item
is categorized by its title as `Movie` or `Series`, never as `LiveStream`. -/
theorem no_slash_url_not_live_stream (title url : List Char)
    (h : url.contains '/' = false) :
    is_live_stream url = false ∧
    (categorize_item title url).category ≠ Category.liveStream := by
  have hr : rfindIdx url '/' = none := rfindIdx_none_of_not_contains h
  have hl : is_live_stream url = false := by
    unfold is_live_stream
    rw [hr]
  refine ⟨hl, ?_⟩
  unfold categorize_item
  rw [hl]
  simp only [Bool.false_eq_true, if_false]
  split <;> simp

theorem no_slash_url_not_live_stream_witness :
    is_live_stream ("channel1".data) = false ∧
    (categorize_item ("Live Channel".data) ("channel1".data)).category ≠ Category.liveStream :=
  no_slash_url_not_live_stream ("Live Channel".data) ("channel1".data) (by decide)

/-- C7 (counterexample): a document whose first non-blank line is exactly the
`#EXTM3U` header, but which begins with a blank line, is rejected with the
missing-header error: `read_header` inspects only the very first line and
never skips blanks. -/
theorem parse_rejects_blank_line_before_header :
    ((linesOf ("\n#EXTM3U\n".data)).filter (fun l => ! (trimL l).isEmpty)).headD []
        = "#EXTM3U".data ∧
    startsWithL (trimL ("#EXTM3U".data)) headerTok = true ∧
    parse "\n#EXTM3U\n" = .error "Invalid M3U file: missing #EXTM3U header" :=
  ⟨by decide, by decide, rfl⟩

/-- C7 (amended): when the very first line of the document (after trimming)
begins with `#EXTM3U`, `parse` does not fail with the missing-header error —
but blank lines preceding the header line are NOT tolerated, since only the
first line is inspected. -/
theorem parse_ok_of_first_line_header (s : String) (l : List Char) (rest : List (List Char))
    (h1 : linesOf s.data = l :: rest) (h2 : startsWithL (trimL l) headerTok = true) :
    ∃ items, parse s = .ok items := by
  unfold parse
  simp only [h1]
  exact ⟨parseItems rest, by rw [if_pos h2]⟩

theorem parse_ok_of_first_line_header_witness :
    ∃ items, parse "#EXTM3U\n" = .ok items :=
  parse_ok_of_first_line_header "#EXTM3U\n" ("#EXTM3U".data) [] (by decide) (by decide)

/-- C1: on the end-to-end input the parser succeeds with exactly one item, and
the categorizer computes `Series` with year 2023, season 2, episode 5 and
cleaned title `Amazing Show` — but `parse_entry` stores the raw post-comma
title `Amazing Show (2023) S02E05` in the item's `title` field, not the
cleaned title the repository's own test `test_series_with_year` (lib.rs)
asserts. -/
theorem parse_amazing_show_end_to_end :
    parse "#EXTM3U\n#EXTINF:-1 group-title=\"Series\",Amazing Show (2023) S02E05\nhttp://x/show.mkv\n" =
      .ok [⟨"Amazing Show (2023) S02E05".data, "http://x/show.mkv".data, "Series".data, none,
            ⟨Category.series, "Amazing Show".data, some 2023, some 2, some 5⟩⟩] ∧
    ("Amazing Show (2023) S02E05".data ≠ "Amazing Show".data) := by
  refine ⟨?_, by decide⟩
  unfold parse
  simp only [parseItems_eq_loop]
  rfl

/-- C3: `parse` fails in exactly two cases — empty input (no first line at
all) yields the empty-file error, and a first line whose trimmed form lacks
the `#EXTM3U` token yields the missing-header error — and for every document
that passes the header check `parse` returns `Ok` (malformed entries are
dropped inside `parseItems`, never surfacing as errors). -/
theorem parse_error_characterization (s : String) :
    (parse s = .error "Empty file" ↔ s = "") ∧
    (parse s = .error "Invalid M3U file: missing #EXTM3U header" ↔
      ∃ l rest, linesOf s.data = l :: rest ∧ startsWithL (trimL l) headerTok = false) ∧
    ((∃ items, parse s = .ok items) ↔
      ∃ l rest, linesOf s.data = l :: rest ∧ startsWithL (trimL l) headerTok = true) := by
  cases hl : linesOf s.data with
  | nil =>
    have hp : parse s = .error "Empty file" := by unfold parse; rw [hl]
    have hs : s = "" := (string_eq_empty_iff s).mpr ((linesOf_eq_nil_iff _).mp hl)
    rw [hp]
    refine ⟨⟨fun _ => hs, fun _ => rfl⟩, ?_, ?_⟩
    · constructor
      · intro h
        simp only [Except.error.injEq] at h
        exact absurd h (by decide)
      · rintro ⟨l, rest, hcons, -⟩
        cases hcons
    · constructor
      · rintro ⟨items, h⟩
        cases h
      · rintro ⟨l, rest, hcons, -⟩
        cases hcons
  | cons l rest =>
    have hne : s ≠ "" := by
      intro hs
      rw [hs] at hl
      cases hl
    have hp : parse s = if startsWithL (trimL l) headerTok = true
        then .ok (parseItems rest)
        else .error "Invalid M3U file: missing #EXTM3U header" := by
      unfold parse; rw [hl]
    by_cases hb : startsWithL (trimL l) headerTok = true
    · rw [hp, if_pos hb]
      refine ⟨⟨fun h => absurd h (by intro h; cases h), fun hs => absurd hs hne⟩, ?_, ?_⟩
      · constructor
        · intro h
          cases h
        · rintro ⟨l2, rest2, hcons, hfalse⟩
          injection hcons with hll hrr
          rw [← hll] at hfalse
          rw [hb] at hfalse
          cases hfalse
      · exact ⟨fun _ => ⟨l, rest, rfl, hb⟩, fun _ => ⟨parseItems rest, rfl⟩⟩
    · rw [hp, if_neg hb]
      have hbf : startsWithL (trimL l) headerTok = false := by
        cases hx : startsWithL (trimL l) headerTok
        · rfl
        · exact absurd hx hb
      refine ⟨?_, ?_, ?_⟩
      · constructor
        · intro h
          simp only [Except.error.injEq] at h
          exact absurd h (by decide)
        · intro hs
          exact absurd hs hne
      · exact ⟨fun _ => ⟨l, rest, rfl, hbf⟩, fun _ => rfl⟩
      · constructor
        · rintro ⟨items, h⟩
          cases h
        · rintro ⟨l2, rest2, hcons, htrue⟩
          injection hcons with hll hrr
          rw [← hll] at htrue
          rw [hbf] at htrue
          cases htrue

theorem bucketItems_insertGrouped (m : List (List Char × List M3UItem))
    (g : List Char) (it : M3UItem) :
    (bucketItems (insertGrouped m g it)).Perm (it :: bucketItems m) := by
  induction m with
  | nil => simp [insertGrouped, bucketItems]
  | cons p rest ih =>
    obtain ⟨k, its⟩ := p
    by_cases hk : k = g
    · subst hk
      have he : insertGrouped ((k, its) :: rest) k it = (k, its ++ [it]) :: rest := by
        simp [insertGrouped]
      rw [he]
      simp only [bucketItems, List.map_cons, List.flatten_cons]
      rw [List.append_assoc]
      exact List.perm_middle
    · simp only [insertGrouped, if_neg hk, bucketItems, List.map_cons, List.flatten_cons]
      refine ((ih.append_left its).trans ?_)
      exact List.perm_middle

theorem flatMaps_buildStep (maps : GroupMaps) (it : M3UItem) :
    (flatMaps (buildStep maps it)).Perm (it :: flatMaps maps) := by
  unfold buildStep flatMaps
  cases it.category
  · -- liveStream: the live map receives the item
    refine ((bucketItems_insertGrouped _ _ _).append_left
      (bucketItems maps.movies_map ++ bucketItems maps.series_map)).trans ?_
    exact List.perm_middle
  · -- series: the series map receives the item
    refine (((bucketItems_insertGrouped _ _ _).append_left _).append_right _).trans ?_
    rw [List.append_assoc, List.append_assoc]
    exact List.perm_middle
  · -- movie: the movies map receives the item
    exact ((bucketItems_insertGrouped _ _ _).append_right _).append_right _

theorem foldl_buildStep_perm : ∀ (items : List M3UItem) (maps : GroupMaps),
    (flatMaps (items.foldl buildStep maps)).Perm (flatMaps maps ++ items) := by
  intro items
  induction items with
  | nil => intro maps; simp
  | cons it rest ih =>
    intro maps
    rw [List.foldl_cons]
    refine (ih (buildStep maps it)).trans ?_
    refine ((flatMaps_buildStep maps it).append_right rest).trans ?_
    exact List.perm_middle.symm

/-- C2: `CategoryTree::build` places every input item in exactly one node of
exactly one of the three collections: the multiset of items across all nodes
of all three collections is a permutation of the input sequence (so no item is
duplicated or dropped), and in particular the total item count equals the
number of input items. -/
theorem build_preserves_items (items : List M3UItem) :
    (allTreeItems (CategoryTree.build items)).Perm items ∧
    (allTreeItems (CategoryTree.build items)).length = items.length := by
  have hmap : ∀ (m : List (List Char × List M3UItem)),
      (((m.map (fun p => (⟨p.1, p.2⟩ : CategoryNode))).map CategoryNode.items).flatten)
        = bucketItems m := by
    intro m
    simp only [List.map_map, bucketItems]
    rfl
  have hperm : (allTreeItems (CategoryTree.build items)).Perm items := by
    unfold CategoryTree.build allTreeItems
    simp only [hmap]
    have h := foldl_buildStep_perm items ⟨[], [], []⟩
    simp only [flatMaps, bucketItems, List.map_nil, List.flatten_nil,
      List.nil_append, List.append_nil] at h
    exact h
  exact ⟨hperm, hperm.length_eq⟩

theorem getD_drop_char (l : List Char) (i t : Nat) (d : Char) :
    (l.drop i).getD t d = l.getD (i + t) d := by
  simp [List.getD_eq_getElem?_getD, List.getElem?_drop]

theorem findYearAux_isYearHead : ∀ (l : List Char) (j i : Nat),
    findYearAux l j = some i → ∃ k, i = j + k ∧ isYearHead (l.drop k) = true := by
  intro l
  induction l with
  | nil => intro j i h; simp [findYearAux] at h
  | cons c rest ih =>
    intro j i h
    simp only [findYearAux] at h
    by_cases hc : isYearHead (c :: rest) = true
    · rw [if_pos hc] at h
      injection h with h
      exact ⟨0, by omega, by simpa using hc⟩
    · rw [if_neg hc] at h
      obtain ⟨k, hk1, hk2⟩ := ih (j + 1) i h
      exact ⟨k + 1, by omega, by simpa using hk2⟩

theorem isDigitC_bounds {c : Char} (h : isDigitC c = true) :
    48 ≤ c.toNat ∧ c.toNat ≤ 57 := by
  simp only [isDigitC, Bool.and_eq_true, decide_eq_true_eq] at h
  exact h

theorem detect_year_range {cs : List Char} {yi : YearInfo}
    (h : detect_year cs = some yi) : 1900 ≤ yi.year ∧ yi.year ≤ 2099 := by
  unfold detect_year at h
  cases hf : findYearAux cs 0 with
  | none => rw [hf] at h; cases h
  | some i =>
    rw [hf] at h
    simp only [Option.some.injEq] at h
    obtain ⟨k, hk, hyh⟩ := findYearAux_isYearHead cs 0 i hf
    have hik : i = k := by omega
    subst hik
    have hyear : yi.year = yearValAt cs i := by rw [← h]
    cases hX : cs.drop i with
    | nil => rw [hX] at hyh; cases hyh
    | cons c0 X1 =>
      cases X1 with
      | nil => rw [hX] at hyh; cases hyh
      | cons c1 X2 =>
        cases X2 with
        | nil => rw [hX] at hyh; cases hyh
        | cons c2 X3 =>
          cases X3 with
          | nil => rw [hX] at hyh; cases hyh
          | cons c3 X4 =>
            rw [hX] at hyh
            simp only [isYearHead, Bool.and_eq_true, Bool.or_eq_true,
              decide_eq_true_eq] at hyh
            obtain ⟨⟨h01 | h01, h2⟩, h3⟩ := hyh <;>
            · obtain ⟨h0, h1⟩ := h01
              have e0 : cs.getD (i + 0) '0' = c0 := by rw [← getD_drop_char, hX]; rfl
              have e1 : cs.getD (i + 1) '0' = c1 := by rw [← getD_drop_char, hX]; rfl
              have e2 : cs.getD (i + 2) '0' = c2 := by rw [← getD_drop_char, hX]; rfl
              have e3 : cs.getD (i + 3) '0' = c3 := by rw [← getD_drop_char, hX]; rfl
              have b2 := isDigitC_bounds h2
              have b3 := isDigitC_bounds h3
              have hb2 : digitVal c2 ≤ 9 := by unfold digitVal; omega
              have hb3 : digitVal c3 ≤ 9 := by unfold digitVal; omega
              rw [hyear]
              unfold yearValAt
              have ei : i + 0 = i := by omega
              rw [ei] at e0
              rw [e0, e1, e2, e3, h0, h1]
              have d0 : digitVal '1' = 1 := by decide
              have d1 : digitVal '9' = 9 := by decide
              have d2 : digitVal '2' = 2 := by decide
              have d3 : digitVal '0' = 0 := by decide
              first
                | (rw [d0, d1]; omega)
                | (rw [d2, d3]; omega)

/-- C6: for every title and URL, the categorizer's result carries `season` and
`episode` exactly when the classification is `Series`; a `LiveStream` result
never carries year, season, or episode; and whenever a year is present it lies
in `[1900, 2099]` (the `(19|20)\d{2}` pattern admits nothing else). -/
theorem categorize_metadata_invariants (title url : List Char) :
    (((categorize_item title url).season.isSome = true ∧
      (categorize_item title url).episode.isSome = true) ↔
        (categorize_item title url).category = Category.series) ∧
    ((categorize_item title url).category = Category.liveStream →
      (categorize_item title url).year = none ∧
      (categorize_item title url).season = none ∧
      (categorize_item title url).episode = none) ∧
    (∀ y, (categorize_item title url).year = some y → 1900 ≤ y ∧ y ≤ 2099) := by
  unfold categorize_item
  by_cases hl : is_live_stream url = true
  · rw [if_pos hl]
    simp
  · rw [if_neg hl]
    cases hy : detect_year title with
    | none =>
      simp only [hy]
      cases hd : detect_episode title with
      | some ep => simp [hd]
      | none => simp [hd]
    | some yi =>
      simp only [hy]
      cases hd : detect_episode yi.cleaned_title with
      | some ep =>
        simp only [hd]
        refine ⟨by simp, by simp, ?_⟩
        intro y hyy
        simp only [Option.some.injEq] at hyy
        rw [← hyy]
        exact detect_year_range hy
      | none =>
        simp only [hd]
        refine ⟨by simp, by simp, ?_⟩
        intro y hyy
        simp only [Option.some.injEq] at hyy
        rw [← hyy]
        exact detect_year_range hy

theorem cmpLower_ne_gt_total : ∀ (x y : List Char),
    cmpLower x y ≠ Ordering.gt ∨ cmpLower y x ≠ Ordering.gt := by
  intro x
  induction x with
  | nil =>
    intro y
    cases y <;> simp [cmpLower]
  | cons a ra ih =>
    intro y
    cases y with
    | nil => right; simp [cmpLower]
    | cons b rb =>
      simp only [cmpLower]
      by_cases c1 : (a.toLower).toNat < (b.toLower).toNat
      · left
        rw [if_pos c1]
        simp
      · by_cases c2 : (b.toLower).toNat < (a.toLower).toNat
        · right
          rw [if_pos c2]
          simp
        · rw [if_neg c1, if_neg c2, if_neg c2, if_neg c1]
          exact ih rb

theorem cmpLower_ne_gt_trans : ∀ (x y z : List Char),
    cmpLower x y ≠ Ordering.gt → cmpLower y z ≠ Ordering.gt →
    cmpLower x z ≠ Ordering.gt := by
  intro x
  induction x with
  | nil =>
    intro y z h1 h2
    cases z <;> simp [cmpLower]
  | cons a ra ih =>
    intro y z h1 h2
    cases y with
    | nil => simp [cmpLower] at h1
    | cons b rb =>
      cases z with
      | nil => simp [cmpLower] at h2
      | cons c rc =>
        simp only [cmpLower] at h1 h2 ⊢
        by_cases hab : (a.toLower).toNat < (b.toLower).toNat
        · have hba : ¬ (b.toLower).toNat < (a.toLower).toNat := by omega
          by_cases hbc : (b.toLower).toNat < (c.toLower).toNat
          · rw [if_pos (by omega : (a.toLower).toNat < (c.toLower).toNat)]
            simp
          · rw [if_neg hbc] at h2
            by_cases hcb : (c.toLower).toNat < (b.toLower).toNat
            · rw [if_pos hcb] at h2
              exact absurd rfl h2
            · rw [if_pos (by omega : (a.toLower).toNat < (c.toLower).toNat)]
              simp
        · rw [if_neg hab] at h1
          by_cases hba : (b.toLower).toNat < (a.toLower).toNat
          · rw [if_pos hba] at h1
            exact absurd rfl h1
          · rw [if_neg hba] at h1
            by_cases hbc : (b.toLower).toNat < (c.toLower).toNat
            · rw [if_pos (by omega : (a.toLower).toNat < (c.toLower).toNat)]
              simp
            · rw [if_neg hbc] at h2
              by_cases hcb : (c.toLower).toNat < (b.toLower).toNat
              · rw [if_pos hcb] at h2
                exact absurd rfl h2
              · rw [if_neg hcb] at h2
                rw [if_neg (by omega : ¬ (a.toLower).toNat < (c.toLower).toNat),
                    if_neg (by omega : ¬ (c.toLower).toNat < (a.toLower).toNat)]
                exact ih rb rc h1 h2

theorem cmpNodes_total (sticky : List (List Char)) : ∀ (a b : CategoryNode),
    cmpNodes sticky a b ≠ Ordering.gt ∨ cmpNodes sticky b a ≠ Ordering.gt := by
  intro a b
  unfold cmpNodes
  cases ha : sticky.contains a.name <;> cases hb : sticky.contains b.name
  · exact (cmpLower_ne_gt_total a.name b.name).imp id id
  · right; simp
  · left; simp
  · exact (cmpLower_ne_gt_total a.name b.name).imp id id

theorem cmpNodes_trans (sticky : List (List Char)) : ∀ (a b c : CategoryNode),
    cmpNodes sticky a b ≠ Ordering.gt → cmpNodes sticky b c ≠ Ordering.gt →
    cmpNodes sticky a c ≠ Ordering.gt := by
  intro a b c h1 h2
  unfold cmpNodes at h1 h2 ⊢
  cases ha : sticky.contains a.name <;> cases hb : sticky.contains b.name <;>
    cases hc : sticky.contains c.name <;>
    rw [ha, hb] at h1 <;> rw [hb, hc] at h2 <;> simp only []
  · exact cmpLower_ne_gt_trans _ _ _ h1 h2
  · exact absurd rfl h2
  · simp at h1
  · simp at h1
  · simp
  · exact absurd rfl h2
  · simp
  · exact cmpLower_ne_gt_trans _ _ _ h1 h2

/-- C8: for every sticky set and hidden set, the movies view returns exactly
the movie nodes whose names are not hidden (a permutation of the filtered node
list), ordered by the comparator that puts sticky names first and compares
case-insensitive names within each partition; on nodes `Action`, `Comedy`,
`Drama` with sticky `{Action}` the view order is `[Action, Comedy, Drama]`,
and hiding `Comedy` removes it. -/
theorem get_movies_view_spec :
    (∀ (t : CategoryTree) (sticky hidden : List (List Char)),
      (get_movies t sticky hidden).Perm
        (t.movies.filter (fun c => ! hidden.contains c.name)) ∧
      List.Sorted (fun a b => cmpNodes sticky a b ≠ Ordering.gt)
        (get_movies t sticky hidden)) ∧
    get_movies exampleTree ["Action".data] [] = [actionNode, comedyNode, dramaNode] ∧
    get_movies exampleTree ["Action".data] ["Comedy".data] = [actionNode, dramaNode] := by
  refine ⟨?_, by decide, by decide⟩
  intro t sticky hidden
  haveI : IsTotal CategoryNode (fun a b => cmpNodes sticky a b ≠ Ordering.gt) :=
    ⟨cmpNodes_total sticky⟩
  haveI : IsTrans CategoryNode (fun a b => cmpNodes sticky a b ≠ Ordering.gt) :=
    ⟨cmpNodes_trans sticky⟩
  exact ⟨List.perm_insertionSort _ _, List.sorted_insertionSort _ _⟩

theorem getD_append_left {A B : List Char} {j : Nat} (h : j < A.length) (d : Char) :
    (A ++ B).getD j d = A.getD j d := by
  simp [List.getD_eq_getElem?_getD, List.getElem?_append, h]

theorem getD_append_at (A B : List Char) (t : Nat) (d : Char) :
    (A ++ B).getD (A.length + t) d = B.getD t d := by
  simp [List.getD_eq_getElem?_getD, List.getElem?_append_right (Nat.le_add_right A.length t)]

theorem isYearHead_length {l : List Char} (h : isYearHead l = true) : 4 ≤ l.length := by
  match l with
  | [] => cases h
  | [_] => cases h
  | [_, _] => cases h
  | [_, _, _] => cases h
  | _ :: _ :: _ :: _ :: _ => simp

theorem isYearHead_digits {l : List Char} (h : isYearHead l = true) :
    ∀ t < 4, isDigitC (l.getD t ' ') = true := by
  match l with
  | [] => cases h
  | [_] => cases h
  | [_, _] => cases h
  | [_, _, _] => cases h
  | c0 :: c1 :: c2 :: c3 :: tail =>
    simp only [isYearHead, Bool.and_eq_true, Bool.or_eq_true, decide_eq_true_eq] at h
    obtain ⟨⟨h01 | h01, h2⟩, h3⟩ := h <;>
    · obtain ⟨h0, h1⟩ := h01
      subst h0; subst h1
      intro t ht
      interval_cases t <;> simp_all <;> decide

theorem isYearHead_append_left {X : List Char} (B : List Char) (h : 4 ≤ X.length) :
    isYearHead (X ++ B) = isYearHead X := by
  match X with
  | [] => simp at h
  | [_] => simp at h
  | [_, _] => simp at h
  | [_, _, _] => simp at h
  | _ :: _ :: _ :: _ :: _ => simp [isYearHead]

theorem findYearAux_eq_some : ∀ (l : List Char) (j k : Nat),
    isYearHead (l.drop k) = true → (∀ k2, k2 < k → isYearHead (l.drop k2) = false) →
    findYearAux l j = some (j + k) := by
  intro l
  induction l with
  | nil =>
    intro j k h _
    rw [List.drop_nil] at h
    cases h
  | cons c rest ih =>
    intro j k h hmin
    simp only [findYearAux]
    cases k with
    | zero =>
      rw [List.drop_zero] at h
      rw [if_pos h]
      congr 1
    | succ k1 =>
      have h0 : isYearHead ((c :: rest).drop 0) = false := hmin 0 (Nat.succ_pos k1)
      rw [List.drop_zero] at h0
      rw [if_neg (by simp [h0])]
      have hr : isYearHead (rest.drop k1) = true := by
        simpa using h
      have hminr : ∀ k2, k2 < k1 → isYearHead (rest.drop k2) = false := by
        intro k2 hk2
        have := hmin (k2 + 1) (by omega)
        simpa using this
      have := ih (j + 1) k1 hr hminr
      rw [this]
      congr 1
      omega

theorem findYearAux_eq_none : ∀ (l : List Char) (j : Nat),
    (∀ k, isYearHead (l.drop k) = false) → findYearAux l j = none := by
  intro l
  induction l with
  | nil => intro j _; rfl
  | cons c rest ih =>
    intro j hall
    simp only [findYearAux]
    have h0 := hall 0
    rw [List.drop_zero] at h0
    rw [if_neg (by simp [h0])]
    refine ih (j + 1) ?_
    intro k
    have := hall (k + 1)
    simpa using this

theorem isYearHead_append_cases {A B : List Char} {k : Nat}
    (h : isYearHead ((A ++ B).drop k) = true) :
    (k + 4 ≤ A.length ∧ isYearHead (A.drop k) = true) ∨
    (A.length ≤ k ∧ isYearHead (B.drop (k - A.length)) = true) ∨
    (k < A.length ∧ A.length < k + 4) := by
  by_cases h1 : k + 4 ≤ A.length
  · left
    refine ⟨h1, ?_⟩
    have hk : k ≤ A.length := by omega
    rw [List.drop_append_of_le_length hk] at h
    rwa [isYearHead_append_left B (by simp; omega)] at h
  · by_cases h2 : A.length ≤ k
    · right; left
      refine ⟨h2, ?_⟩
      have hk : k = A.length + (k - A.length) := by omega
      rw [hk, List.drop_append] at h
      exact h
    · right; right
      omega

theorem hasYearSub_cons {l : List Char} (c : Char) (h : hasYearSub l) :
    hasYearSub (c :: l) := by
  obtain ⟨k, hk⟩ := h
  exact ⟨k + 1, by simpa using hk⟩

theorem hasYearSub_append_left {B : List Char} (A : List Char) (h : hasYearSub B) :
    hasYearSub (A ++ B) := by
  induction A with
  | nil => simpa using h
  | cons c ra ih => exact hasYearSub_cons c ih

theorem hasYearSub_append_right {A : List Char} (B : List Char) (h : hasYearSub A) :
    hasYearSub (A ++ B) := by
  obtain ⟨k, hk⟩ := h
  have hlen := isYearHead_length hk
  have hk4 : k ≤ A.length := by
    rcases le_or_lt k A.length with h1 | h1
    · exact h1
    · exfalso
      rw [List.drop_eq_nil_of_le (by omega)] at hk
      cases hk
  refine ⟨k, ?_⟩
  rw [List.drop_append_of_le_length hk4]
  rwa [isYearHead_append_left B (by simpa [List.length_drop] using hlen)]

theorem isYearHead_head_digit {l : List Char} {k : Nat} {t : Nat}
    (h : isYearHead (l.drop k) = true) (ht : t < 4) :
    isDigitC (l.getD (k + t) ' ') = true := by
  have := isYearHead_digits h t ht
  rwa [getD_drop_char] at this

theorem joinWords_absorb : ∀ (rest cur : List Char),
    hasYearSub (joinWords (wordsAux cur rest)) → hasYearSub (cur.reverse ++ rest) := by
  intro rest
  induction rest with
  | nil =>
    intro cur h
    by_cases hc : cur.isEmpty = true
    · rw [wordsAux, if_pos hc] at h
      obtain ⟨k, hk⟩ := h
      rw [show joinWords [] = [] from rfl, List.drop_nil] at hk
      cases hk
    · rw [wordsAux, if_neg hc] at h
      have : joinWords [cur.reverse] = cur.reverse := by simp [joinWords]
      rw [this] at h
      simpa using hasYearSub_append_right [] h
  | cons c rs ih =>
    intro cur h
    by_cases hw : isWsChar c = true
    · rw [wordsAux, if_pos hw] at h
      by_cases hc : cur.isEmpty = true
      · rw [if_pos hc] at h
        have hcur : cur = [] := List.isEmpty_iff.mp hc
        subst hcur
        simpa using hasYearSub_cons c (by simpa using ih [] h)
      · rw [if_neg hc] at h
        cases hW : wordsAux [] rs with
        | nil =>
          rw [hW] at h
          have : joinWords [cur.reverse] = cur.reverse := by simp [joinWords]
          rw [this] at h
          exact hasYearSub_append_right (c :: rs) h
        | cons w ws =>
          rw [hW] at h
          have hj : joinWords (cur.reverse :: w :: ws) =
              cur.reverse ++ ' ' :: joinWords (w :: ws) := by simp [joinWords]
          rw [hj] at h
          obtain ⟨k, hk⟩ := h
          rcases isYearHead_append_cases hk with ⟨hk4, hin⟩ | ⟨hge, hin⟩ | ⟨hlt, hgt⟩
          · exact hasYearSub_append_right (c :: rs) ⟨k, hin⟩
          · cases hd : k - cur.reverse.length with
            | zero =>
              rw [hd, List.drop_zero] at hin
              have := isYearHead_digits hin 0 (by omega)
              rw [show (' ' :: joinWords (w :: ws)).getD 0 ' ' = ' ' from rfl] at this
              exact absurd this (by decide)
            | succ k1 =>
              rw [hd] at hin
              have hin2 : isYearHead ((joinWords (w :: ws)).drop k1) = true := by
                simpa using hin
              have hrs : hasYearSub rs := by
                have := ih [] (by rw [hW]; exact ⟨k1, hin2⟩)
                simpa using this
              exact hasYearSub_append_left cur.reverse (hasYearSub_cons c hrs)
          · exfalso
            have hdig := isYearHead_head_digit hk
              (t := cur.reverse.length - k) (by omega)
            have hsep : (cur.reverse ++ ' ' :: joinWords (w :: ws)).getD
                (k + (cur.reverse.length - k)) ' ' = ' ' := by
              have : k + (cur.reverse.length - k) = cur.reverse.length + 0 := by omega
              rw [this, getD_append_at]
              rfl
            rw [hsep] at hdig
            cases hdig
    · rw [wordsAux, if_neg hw] at h
      have := ih (c :: cur) h
      rw [List.reverse_cons, List.append_assoc] at this
      simpa using this

theorem collapseWs_no_year {X : List Char} (h : ¬ hasYearSub X) :
    ¬ hasYearSub (collapseWs X) := by
  intro hc
  exact h (by simpa using joinWords_absorb X [] hc)

theorem no_year_in_remainder
    (p s : List Char) (ob cb d0 d1 d2 d3 : Char)
    (huniq : ∀ j, j < (p ++ ob :: d0 :: d1 :: d2 :: d3 :: cb :: s).length →
        isYearHead ((p ++ ob :: d0 :: d1 :: d2 :: d3 :: cb :: s).drop j) = true →
        j = p.length + 1)
    (hjunc : p.length = 0 ∨ isDigitC (p.getD (p.length - 1) ' ') = false ∨
        isDigitC (s.getD 0 ' ') = false) :
    ¬ hasYearSub (p ++ s) := by
  rintro ⟨k, hk⟩
  have hclen : (p ++ ob :: d0 :: d1 :: d2 :: d3 :: cb :: s).length
      = p.length + (6 + s.length) := by simp; omega
  rcases isYearHead_append_cases hk with ⟨hk4, hin⟩ | ⟨hge, hin⟩ | ⟨hlt, hgt⟩
  · have hcsk : isYearHead ((p ++ ob :: d0 :: d1 :: d2 :: d3 :: cb :: s).drop k) = true := by
      rw [List.drop_append_of_le_length (by omega)]
      rw [isYearHead_append_left _ (by simp [List.length_drop]; omega)]
      exact hin
    have := huniq k (by omega) hcsk
    omega
  · have hsplit : (ob :: d0 :: d1 :: d2 :: d3 :: cb :: s)
        = [ob, d0, d1, d2, d3, cb] ++ s := rfl
    have hcsk : isYearHead ((p ++ ob :: d0 :: d1 :: d2 :: d3 :: cb :: s).drop
        (p.length + (6 + (k - p.length)))) = true := by
      rw [List.drop_append, hsplit]
      rw [show (6 : Nat) + (k - p.length)
            = ([ob, d0, d1, d2, d3, cb] : List Char).length + (k - p.length) from rfl]
      rw [List.drop_append]
      exact hin
    have hklen := isYearHead_length hcsk
    rw [List.length_drop] at hklen
    have := huniq (p.length + (6 + (k - p.length))) (by omega) hcsk
    omega
  · have hp0 : 0 < p.length := by omega
    have hlen4 := isYearHead_length hk
    rw [List.length_drop, List.length_append] at hlen4
    have h1 := isYearHead_head_digit hk (t := p.length - 1 - k) (by omega)
    rw [show k + (p.length - 1 - k) = p.length - 1 from by omega] at h1
    have h2 := isYearHead_head_digit hk (t := p.length - k) (by omega)
    rw [show k + (p.length - k) = p.length + 0 from by omega] at h2
    rw [getD_append_left (by omega) ' '] at h1
    rw [getD_append_at] at h2
    rcases hjunc with hj | hj | hj
    · omega
    · rw [hj] at h1; cases h1
    · rw [hj] at h2; cases h2

/-- C4 (amended): for every title of the form `p ++ ob ++ d0d1d2d3 ++ cb ++ s`
whose four wrapped digits form the ONLY `(19|20)\d{2}` occurrence in the whole
title, and where removing the wrapped span does not juxtapose a digit at the
end of `p` with a digit at the start of `s`, `detect_year` strips the year and
both brackets (the cleaned title is exactly the whitespace-normalised
`p ++ s`) and re-detecting on the cleaned title yields nothing. The original
claim, which only demanded a unique wrapped year, is false (see the
counterexample): a second unwrapped year-like substring, or digits abutting
the removed span, defeat it. -/
theorem detect_year_unique_wrapped
    (p s : List Char) (ob cb d0 d1 d2 d3 : Char)
    (hob : ob = '(' ∨ ob = '[')
    (hcb : cb = ')' ∨ cb = ']')
    (hmatch : isYearHead [d0, d1, d2, d3] = true)
    (huniq : ∀ j, j < (p ++ ob :: d0 :: d1 :: d2 :: d3 :: cb :: s).length →
        isYearHead ((p ++ ob :: d0 :: d1 :: d2 :: d3 :: cb :: s).drop j) = true →
        j = p.length + 1)
    (hjunc : p.length = 0 ∨ isDigitC (p.getD (p.length - 1) ' ') = false ∨
        isDigitC (s.getD 0 ' ') = false) :
    detect_year (p ++ ob :: d0 :: d1 :: d2 :: d3 :: cb :: s) =
      some ⟨digitVal d0 * 1000 + digitVal d1 * 100 + digitVal d2 * 10 + digitVal d3,
            collapseWs (p ++ s)⟩ ∧
    detect_year (collapseWs (p ++ s)) = none := by
  have hclen : (p ++ ob :: d0 :: d1 :: d2 :: d3 :: cb :: s).length
      = p.length + (6 + s.length) := by simp; omega
  constructor
  · have hdrop : (p ++ ob :: d0 :: d1 :: d2 :: d3 :: cb :: s).drop (p.length + 1)
        = d0 :: d1 :: d2 :: d3 :: cb :: s := by
      rw [List.drop_append]
      rfl
    have hmm : isYearHead ((p ++ ob :: d0 :: d1 :: d2 :: d3 :: cb :: s).drop (p.length + 1))
        = true := by
      rw [hdrop]
      rw [show (d0 :: d1 :: d2 :: d3 :: cb :: s)
            = [d0, d1, d2, d3] ++ (cb :: s) from rfl]
      rw [isYearHead_append_left _ (by simp)]
      exact hmatch
    have hmin : ∀ k2, k2 < p.length + 1 →
        isYearHead ((p ++ ob :: d0 :: d1 :: d2 :: d3 :: cb :: s).drop k2) = false := by
      intro k2 hk2
      cases hx : isYearHead ((p ++ ob :: d0 :: d1 :: d2 :: d3 :: cb :: s).drop k2) with
      | false => rfl
      | true =>
        have hxl := isYearHead_length hx
        rw [List.length_drop] at hxl
        have := huniq k2 (by omega) hx
        omega
    have hfind : findYearAux (p ++ ob :: d0 :: d1 :: d2 :: d3 :: cb :: s) 0
        = some (p.length + 1) := by
      have := findYearAux_eq_some _ 0 (p.length + 1) hmm hmin
      simpa using this
    have hgob : (p ++ ob :: d0 :: d1 :: d2 :: d3 :: cb :: s).getD (p.length + 1 - 1) ' '
        = ob := by
      rw [show p.length + 1 - 1 = p.length + 0 from by omega, getD_append_at]
      rfl
    have hgcb : (p ++ ob :: d0 :: d1 :: d2 :: d3 :: cb :: s).getD (p.length + 1 + 4) ' '
        = cb := by
      rw [show p.length + 1 + 4 = p.length + 5 from by omega, getD_append_at]
      rfl
    have htake : (p ++ ob :: d0 :: d1 :: d2 :: d3 :: cb :: s).take (p.length + 1 - 1)
        = p := by
      rw [show p.length + 1 - 1 = p.length from by omega, List.take_left]
    have hdrop6 : (p ++ ob :: d0 :: d1 :: d2 :: d3 :: cb :: s).drop (p.length + 1 + 4 + 1)
        = s := by
      rw [show p.length + 1 + 4 + 1 = p.length + 6 from by omega, List.drop_append]
      rfl
    have g0 : (p ++ ob :: d0 :: d1 :: d2 :: d3 :: cb :: s).getD (p.length + 1) '0'
        = d0 := by
      rw [getD_append_at]
      rfl
    have g1 : (p ++ ob :: d0 :: d1 :: d2 :: d3 :: cb :: s).getD (p.length + 1 + 1) '0'
        = d1 := by
      rw [show p.length + 1 + 1 = p.length + 2 from by omega, getD_append_at]
      rfl
    have g2 : (p ++ ob :: d0 :: d1 :: d2 :: d3 :: cb :: s).getD (p.length + 1 + 2) '0'
        = d2 := by
      rw [show p.length + 1 + 2 = p.length + 3 from by omega, getD_append_at]
      rfl
    have g3 : (p ++ ob :: d0 :: d1 :: d2 :: d3 :: cb :: s).getD (p.length + 1 + 3) '0'
        = d3 := by
      rw [show p.length + 1 + 3 = p.length + 4 from by omega, getD_append_at]
      rfl
    unfold detect_year
    rw [hfind]
    simp only []
    rw [if_pos ⟨by omega, by rw [hgob]; exact hob⟩]
    rw [if_pos ⟨by omega, by rw [hgcb]; exact hcb⟩]
    rw [htake, hdrop6]
    unfold yearValAt
    rw [g0, g1, g2, g3]
  · have hnone : ¬ hasYearSub (collapseWs (p ++ s)) :=
      collapseWs_no_year (no_year_in_remainder p s ob cb d0 d1 d2 d3 huniq hjunc)
    unfold detect_year
    rw [findYearAux_eq_none _ 0 ?_]
    intro k
    cases hx : isYearHead ((collapseWs (p ++ s)).drop k) with
    | false => rfl
    | true => exact absurd ⟨k, hx⟩ hnone

/-- C4 (counterexample): the title `19(2000)99` contains exactly one
bracket-wrapped year (`(2000)`), and `detect_year` does remove the year and
its parentheses — but the removal juxtaposes the surrounding digits `19` and
`99` into `1999`, so re-detecting on the cleaned title finds a year instead
of nothing, refuting the claim as stated. -/
theorem detect_year_wrapped_counterexample :
    (((List.range ("19(2000)99".data).length).filter
        (wrappedYearAt ("19(2000)99".data))).length = 1) ∧
    detect_year ("19(2000)99".data) = some ⟨2000, "1999".data⟩ ∧
    detect_year ("1999".data) = some ⟨1999, []⟩ := by
  refine ⟨by decide, by decide, by decide⟩

theorem detect_year_unique_wrapped_witness :
    detect_year ("Old Movie ".data ++ '[' :: '1' :: '9' :: '9' :: '9' :: ']' :: []) =
      some ⟨digitVal '1' * 1000 + digitVal '9' * 100 + digitVal '9' * 10 + digitVal '9',
            collapseWs ("Old Movie ".data ++ [])⟩ ∧
    detect_year (collapseWs ("Old Movie ".data ++ [])) = none :=
  detect_year_unique_wrapped ("Old Movie ".data) [] '[' ']' '1' '9' '9' '9'
    (by decide) (by decide) (by decide) (by decide) (by decide)

theorem dropWhile_head_not {p : Char → Bool} : ∀ {l c t},
    List.dropWhile p l = c :: t → p c = false := by
  intro l
  induction l with
  | nil => intro c t h; cases h
  | cons a rest ih =>
    intro c t h
    rw [List.dropWhile_cons] at h
    by_cases ha : p a = true
    · rw [if_pos ha] at h
      exact ih h
    · rw [if_neg ha] at h
      injection h with h1 _
      subst h1
      simpa using ha

theorem dropWhile_idem (p : Char → Bool) (l : List Char) :
    List.dropWhile p (List.dropWhile p l) = List.dropWhile p l := by
  cases hd : List.dropWhile p l with
  | nil => rfl
  | cons c t =>
    rw [List.dropWhile_cons, if_neg (by rw [dropWhile_head_not hd]; simp)]

theorem dropTrailWs_idem (l : List Char) : dropTrailWs (dropTrailWs l) = dropTrailWs l := by
  unfold dropTrailWs
  rw [List.reverse_reverse, dropWhile_idem]

theorem trimL_dropTrailWs (l : List Char) : trimL (dropTrailWs l) = trimL l := by
  unfold trimL
  rw [dropTrailWs_idem]

theorem dropTrailWs_snoc (X : List Char) (c : Char) :
    dropTrailWs (X ++ [c]) = if isWsChar c = true then dropTrailWs X else X ++ [c] := by
  unfold dropTrailWs
  rw [List.reverse_append]
  simp only [List.reverse_cons, List.reverse_nil, List.nil_append, List.singleton_append,
    List.dropWhile_cons]
  by_cases hc : isWsChar c = true
  · rw [if_pos hc, if_pos hc]
  · rw [if_neg hc, if_neg hc]
    simp

theorem length_dropWhile_le_char (p : Char → Bool) : ∀ l : List Char,
    (List.dropWhile p l).length ≤ l.length := by
  intro l
  induction l with
  | nil => simp
  | cons a rest ih =>
    rw [List.dropWhile_cons]
    by_cases ha : p a = true
    · rw [if_pos ha]
      simp only [List.length_cons]
      omega
    · rw [if_neg ha]

theorem dropTrailWs_length_le (l : List Char) : (dropTrailWs l).length ≤ l.length := by
  unfold dropTrailWs
  rw [List.length_reverse]
  calc (List.dropWhile isWsChar l.reverse).length
      ≤ l.reverse.length := length_dropWhile_le_char _ _
    _ = l.length := List.length_reverse l

theorem dropTrailWs_is_take (l : List Char) :
    l.take (dropTrailWs l).length = dropTrailWs l := by
  have hdecomp : l = dropTrailWs l ++ (List.takeWhile isWsChar l.reverse).reverse := by
    unfold dropTrailWs
    rw [← List.reverse_append, List.takeWhile_append_dropWhile, List.reverse_reverse]
  calc l.take (dropTrailWs l).length
      = (dropTrailWs l ++ (List.takeWhile isWsChar l.reverse).reverse).take
          (dropTrailWs l).length := by rw [← hdecomp]
    _ = dropTrailWs l := List.take_left _ _

theorem trimL_ne_nil_of_dropTrail {l : List Char} (h : dropTrailWs l ≠ []) :
    trimL l ≠ [] := by
  unfold trimL dropLeadWs
  intro hnil
  rw [List.dropWhile_eq_nil_iff] at hnil
  cases hD : dropTrailWs l with
  | nil => exact h hD
  | cons c t =>
    unfold dropTrailWs at hD
    cases hR : List.dropWhile isWsChar l.reverse with
    | nil => rw [hR] at hD; cases hD
    | cons c2 t2 =>
      have hc2 : isWsChar c2 = false := dropWhile_head_not hR
      have hc2mem : c2 ∈ dropTrailWs l := by
        unfold dropTrailWs
        rw [hR]
        simp
      exact absurd (hnil c2 hc2mem) (by rw [hc2]; simp)

theorem backWs_take : ∀ (cs : List Char) (j : Nat), j ≤ cs.length →
    backWs cs j = (dropTrailWs (cs.take j)).length := by
  intro cs j
  induction j with
  | zero => intro _; simp [backWs, dropTrailWs]
  | succ j1 ih =>
    intro hlt
    have hj1 : j1 < cs.length := by omega
    have htake : cs.take (j1 + 1) = cs.take j1 ++ [cs.getD j1 ' '] := by
      rw [List.take_succ]
      congr 1
      rw [List.getElem?_eq_getElem hj1]
      simp [List.getD_eq_getElem?_getD, List.getElem?_eq_getElem hj1]
    rw [htake, dropTrailWs_snoc]
    simp only [backWs]
    by_cases hw : isWsChar (cs.getD j1 ' ') = true
    · rw [if_pos hw, if_pos hw]
      exact ih (by omega)
    · rw [if_neg hw, if_neg hw]
      rw [List.length_append, List.length_take]
      simp
      omega

theorem digit_not_ws {c : Char} (h : isDigitC c = true) : isWsChar c = false := by
  simp only [isDigitC, Bool.and_eq_true, decide_eq_true_eq] at h
  cases hx : isWsChar c with
  | false => rfl
  | true =>
    exfalso
    simp only [isWsChar, Bool.or_eq_true, Bool.and_eq_true, beq_iff_eq,
      decide_eq_true_eq] at hx
    omega

theorem digit_not_sS {c : Char} (h : isDigitC c = true) : ¬ (c = 'S' ∨ c = 's') := by
  rintro (rfl | rfl) <;> simp [isDigitC] at h

theorem digit_not_eE {c : Char} (h : isDigitC c = true) : ¬ (c = 'E' ∨ c = 'e') := by
  rintro (rfl | rfl) <;> simp [isDigitC] at h


theorem scanSeasonStep_noLock {cs : List Char} {i sne : Nat} {ch : Char} {rest : List Char}
    (h : ¬ (ch = 'S' ∨ ch = 's') ∨ isDigitC (rest.headD '\x00') = false) :
    scanSeasonStep cs i none sne ch rest = (none, sne) := by
  unfold scanSeasonStep
  by_cases hc : ch = 'S' ∨ ch = 's'
  · rw [if_pos ⟨rfl, hc⟩]
    cases rest with
    | nil => rfl
    | cons s0 r2 =>
      rcases h with h | h
      · exact absurd hc h
      · have h0 : isDigitC s0 = false := h
        simp [h0]
  · rw [if_neg (by tauto)]

theorem scanSeasonStep_some {cs : List Char} {i sne : Nat} {sv : Nat} {ch : Char}
    {rest : List Char} :
    scanSeasonStep cs i (some sv) sne ch rest = (some sv, sne) := by
  unfold scanSeasonStep
  rw [if_neg (by simp)]

theorem scanEpisodeTry_noE {season episode : Option Nat} {ch : Char} {rest : List Char}
    (h : ¬ (ch = 'E' ∨ ch = 'e')) :
    scanEpisodeTry season episode ch rest = none := by
  unfold scanEpisodeTry
  rw [if_neg (by tauto)]

theorem scanEpisodeTry_noSeason {episode : Option Nat} {ch : Char} {rest : List Char} :
    scanEpisodeTry none episode ch rest = none := by
  unfold scanEpisodeTry
  rw [if_neg (by simp)]

theorem scanAux_skip (cs : List Char) : ∀ (A B : List Char) (i sne : Nat),
    (∀ j, j < A.length → ((A ++ B).getD j ' ' = 'S' ∨ (A ++ B).getD j ' ' = 's') →
      isDigitC ((A ++ B).getD (j + 1) '\x00') = false) →
    scanAux cs (A ++ B) i none none sne = scanAux cs B (i + A.length) none none sne := by
  intro A
  induction A with
  | nil => intro B i sne _; simp
  | cons c A2 ih =>
    intro B i sne hyp
    rw [List.cons_append]
    have hstep : scanSeasonStep cs i none sne c (A2 ++ B) = (none, sne) := by
      refine scanSeasonStep_noLock ?_
      by_cases hc : c = 'S' ∨ c = 's'
      · right
        have h0 := hyp 0 (by simp) (by simpa using hc)
        cases hAB : A2 ++ B with
        | nil => decide
        | cons s0 r2 =>
          have h0b : isDigitC ((A2 ++ B).getD 0 '\x00') = false := h0
          rw [hAB] at h0b
          exact h0b
      · left; exact hc
    have hgoal : scanAux cs (c :: (A2 ++ B)) i none none sne
        = scanAux cs (A2 ++ B) (i + 1) none none sne := by
      simp only [scanAux, hstep, scanEpisodeTry_noSeason]
    rw [hgoal, ih B (i + 1) sne ?_]
    · congr 1
      simp only [List.length_cons]
      omega
    · intro j hj hsj
      have := hyp (j + 1) (by simp only [List.length_cons]; omega) (by simpa using hsj)
      simpa using this

theorem scanAux_skip_seasoned (cs : List Char) : ∀ (A B : List Char) (i sne : Nat)
    (sv : Nat), (∀ c ∈ A, ¬ (c = 'E' ∨ c = 'e')) →
    scanAux cs (A ++ B) i (some sv) none sne
      = scanAux cs B (i + A.length) (some sv) none sne := by
  intro A
  induction A with
  | nil => intro B i sne sv _; simp
  | cons c A2 ih =>
    intro B i sne sv hyp
    rw [List.cons_append]
    have hgoal : scanAux cs (c :: (A2 ++ B)) i (some sv) none sne
        = scanAux cs (A2 ++ B) (i + 1) (some sv) none sne := by
      simp only [scanAux, scanSeasonStep_some, scanEpisodeTry_noE (hyp c (by simp))]
    rw [hgoal, ih B (i + 1) sne sv (fun d hd => hyp d (by simp [hd]))]
    congr 1
    simp only [List.length_cons]
    omega

theorem findPat_some (f : List Char → Option (Nat × Nat)) (hnil : f [] = none) :
    ∀ (l : List Char) (j k s e : Nat),
    f (l.drop k) = some (s, e) → (∀ k2, k2 < k → f (l.drop k2) = none) →
    findPat f l j = some (j + k, s, e) := by
  intro l
  induction l with
  | nil =>
    intro j k s e h _
    rw [List.drop_nil, hnil] at h
    cases h
  | cons c rest ih =>
    intro j k s e h hmin
    simp only [findPat]
    cases k with
    | zero =>
      rw [List.drop_zero] at h
      rw [h]
      simp
    | succ k1 =>
      have h0 : f (c :: rest) = none := by
        have := hmin 0 (by omega)
        rwa [List.drop_zero] at this
      rw [h0]
      rw [ih (j + 1) k1 s e (by simpa using h)
        (fun k2 hk2 => by simpa using hmin (k2 + 1) (by omega))]
      have harith : j + 1 + k1 = j + (k1 + 1) := by omega
      rw [harith]

theorem manual_scan_result
    (pre ds de suf : List Char) (sc ec : Char)
    (hsc : sc = 'S' ∨ sc = 's') (hec : ec = 'E' ∨ ec = 'e')
    (hds_len : 1 ≤ ds.length ∧ ds.length ≤ 2)
    (hds_dig : ∀ c ∈ ds, isDigitC c = true)
    (hde_len : 1 ≤ de.length ∧ de.length ≤ 2)
    (hde_dig : ∀ c ∈ de, isDigitC c = true)
    (hde2 : de.length = 2 ∨ isDigitC (suf.headD '\x00') = false)
    (hpre : ∀ j, j < pre.length →
        ((pre ++ sc :: (ds ++ ec :: (de ++ suf))).getD j ' ' = 'S' ∨
         (pre ++ sc :: (ds ++ ec :: (de ++ suf))).getD j ' ' = 's') →
        isDigitC ((pre ++ sc :: (ds ++ ec :: (de ++ suf))).getD (j + 1) '\x00') = false) :
    detect_episode_manual (pre ++ sc :: (ds ++ ec :: (de ++ suf)))
      = some ⟨(if (trimL pre).isEmpty = true
               then pre ++ sc :: (ds ++ ec :: (de ++ suf)) else trimL pre),
              digitsVal2 ds, digitsVal2 de⟩ := by
  have hecd : isDigitC ec = false := by rcases hec with rfl | rfl <;> decide
  have hscE : ¬ (sc = 'E' ∨ sc = 'e') := by rcases hsc with rfl | rfl <;> decide
  have h1 : scanAux (pre ++ sc :: (ds ++ ec :: (de ++ suf)))
      (pre ++ sc :: (ds ++ ec :: (de ++ suf))) 0 none none 0
      = scanAux (pre ++ sc :: (ds ++ ec :: (de ++ suf)))
        (sc :: (ds ++ ec :: (de ++ suf))) pre.length none none 0 := by
    have := scanAux_skip (pre ++ sc :: (ds ++ ec :: (de ++ suf)))
      pre (sc :: (ds ++ ec :: (de ++ suf))) 0 0 hpre
    simpa using this
  have hlock : scanSeasonStep (pre ++ sc :: (ds ++ ec :: (de ++ suf))) pre.length none 0
      sc (ds ++ ec :: (de ++ suf))
      = (some (digitsVal2 ds),
         backWs (pre ++ sc :: (ds ++ ec :: (de ++ suf))) pre.length) := by
    unfold scanSeasonStep
    rw [if_pos ⟨rfl, hsc⟩]
    rcases ds with _ | ⟨a, _ | ⟨b, _ | ⟨x, ds4⟩⟩⟩
    · simp at hds_len
    · have ha : isDigitC a = true := hds_dig a (by simp)
      simp [ha, hecd, digitsVal2]
    · have ha : isDigitC a = true := hds_dig a (by simp)
      have hb : isDigitC b = true := hds_dig b (by simp)
      simp [ha, hb, digitsVal2]
    · simp at hds_len
  have h2 : scanAux (pre ++ sc :: (ds ++ ec :: (de ++ suf)))
      (sc :: (ds ++ ec :: (de ++ suf))) pre.length none none 0
      = scanAux (pre ++ sc :: (ds ++ ec :: (de ++ suf))) (ds ++ ec :: (de ++ suf))
        (pre.length + 1) (some (digitsVal2 ds)) none
        (backWs (pre ++ sc :: (ds ++ ec :: (de ++ suf))) pre.length) := by
    simp only [scanAux, hlock, scanEpisodeTry_noE hscE]
  have h3 : scanAux (pre ++ sc :: (ds ++ ec :: (de ++ suf))) (ds ++ ec :: (de ++ suf))
      (pre.length + 1) (some (digitsVal2 ds)) none
      (backWs (pre ++ sc :: (ds ++ ec :: (de ++ suf))) pre.length)
      = scanAux (pre ++ sc :: (ds ++ ec :: (de ++ suf))) (ec :: (de ++ suf))
        (pre.length + 1 + ds.length) (some (digitsVal2 ds)) none
        (backWs (pre ++ sc :: (ds ++ ec :: (de ++ suf))) pre.length) :=
    scanAux_skip_seasoned _ ds (ec :: (de ++ suf)) (pre.length + 1) _ (digitsVal2 ds)
      (fun c hc => digit_not_eE (hds_dig c hc))
  have hep : scanEpisodeTry (some (digitsVal2 ds)) none ec (de ++ suf)
      = some (digitsVal2 de) := by
    unfold scanEpisodeTry
    rw [if_pos ⟨by simp, rfl, hec⟩]
    rcases de with _ | ⟨x, _ | ⟨y, _ | ⟨z, de4⟩⟩⟩
    · simp at hde_len
    · have hx : isDigitC x = true := hde_dig x (by simp)
      have hsufd : isDigitC (suf.headD '\x00') = false := by
        rcases hde2 with h | h
        · simp at h
        · exact h
      have hsufd2 : isDigitC (suf.head?.getD '\x00') = false := by
        cases suf <;> exact hsufd
      simp [hx, hsufd2, digitsVal2]
    · have hx : isDigitC x = true := hde_dig x (by simp)
      have hy : isDigitC y = true := hde_dig y (by simp)
      simp [hx, hy, digitsVal2]
    · simp at hde_len
  have h4 : scanAux (pre ++ sc :: (ds ++ ec :: (de ++ suf))) (ec :: (de ++ suf))
      (pre.length + 1 + ds.length) (some (digitsVal2 ds)) none
      (backWs (pre ++ sc :: (ds ++ ec :: (de ++ suf))) pre.length)
      = (some (digitsVal2 ds), some (digitsVal2 de),
         backWs (pre ++ sc :: (ds ++ ec :: (de ++ suf))) pre.length) := by
    simp only [scanAux, scanSeasonStep_some, hep]
  have hbw : backWs (pre ++ sc :: (ds ++ ec :: (de ++ suf))) pre.length
      = (dropTrailWs pre).length := by
    rw [backWs_take _ _ (by simp), List.take_left]
  unfold detect_episode_manual
  rw [h1, h2, h3, h4, hbw]
  by_cases hD : dropTrailWs pre = []
  · have hz : (dropTrailWs pre).length = 0 := by rw [hD]; rfl
    have htp : trimL pre = [] := by unfold trimL; rw [hD]; rfl
    rw [hz, htp]
    simp
  · have hpos : 0 < (dropTrailWs pre).length := by
      cases hx : (dropTrailWs pre).length with
      | zero => exact absurd (List.eq_nil_of_length_eq_zero hx) hD
      | succ n => omega
    have htake : (pre ++ sc :: (ds ++ ec :: (de ++ suf))).take (dropTrailWs pre).length
        = dropTrailWs pre := by
      rw [List.take_append_of_le_length (dropTrailWs_length_le pre)]
      exact dropTrailWs_is_take pre
    have htne : trimL pre ≠ [] := trimL_ne_nil_of_dropTrail hD
    have hemp : (trimL pre).isEmpty = false := by
      cases hx : (trimL pre).isEmpty
      · rfl
      · exact absurd (List.isEmpty_iff.mp hx) htne
    simp only [if_pos hpos, htake, trimL_dropTrailWs, hemp, Bool.false_eq_true, if_false]

theorem p1_scan_result
    (pre ds de suf : List Char) (sc ec : Char)
    (hsc : sc = 'S' ∨ sc = 's') (hec : ec = 'E' ∨ ec = 'e')
    (hds_len : 1 ≤ ds.length ∧ ds.length ≤ 2)
    (hds_dig : ∀ c ∈ ds, isDigitC c = true)
    (hde_len : 1 ≤ de.length ∧ de.length ≤ 2)
    (hde_dig : ∀ c ∈ de, isDigitC c = true)
    (hde2 : de.length = 2 ∨ isDigitC (suf.headD '\x00') = false)
    (hp1 : ∀ j, j < pre.length →
        p1At ((pre ++ sc :: (ds ++ ec :: (de ++ suf))).drop j) = none) :
    p1Result (pre ++ sc :: (ds ++ ec :: (de ++ suf)))
      = some ⟨(if (trimL pre).isEmpty = true
               then pre ++ sc :: (ds ++ ec :: (de ++ suf)) else trimL pre),
              digitsVal2 ds, digitsVal2 de⟩ := by
  have hecw : isWsChar ec = false := by rcases hec with rfl | rfl <;> decide
  have hecd : isDigitC ec = false := by rcases hec with rfl | rfl <;> decide
  have hp1tail : ∀ sv, p1Tail sv (ec :: (de ++ suf)) = some (sv, digitsVal2 de) := by
    intro sv
    rcases de with _ | ⟨x, _ | ⟨y, _ | ⟨z, de4⟩⟩⟩
    · simp at hde_len
    · have hx : isDigitC x = true := hde_dig x (by simp)
      have hxw : isWsChar x = false := digit_not_ws hx
      have hsufd : isDigitC (suf.headD '\x00') = false := by
        rcases hde2 with h | h
        · simp at h
        · exact h
      have hsufd2 : isDigitC (suf.head?.getD '\x00') = false := by
        cases suf <;> exact hsufd
      rcases hec with rfl | rfl <;>
        simp [p1Tail, hecw, hxw, hx, hsufd2, digitsVal2]
    · have hx : isDigitC x = true := hde_dig x (by simp)
      have hy : isDigitC y = true := hde_dig y (by simp)
      have hxw : isWsChar x = false := digit_not_ws hx
      rcases hec with rfl | rfl <;>
        simp [p1Tail, hecw, hxw, hx, hy, digitsVal2]
    · simp at hde_len
  have hmatch : p1At ((pre ++ sc :: (ds ++ ec :: (de ++ suf))).drop pre.length)
      = some (digitsVal2 ds, digitsVal2 de) := by
    rw [List.drop_left]
    rcases ds with _ | ⟨a, _ | ⟨b, _ | ⟨w, ds4⟩⟩⟩
    · simp at hds_len
    · have ha : isDigitC a = true := hds_dig a (by simp)
      have haw : isWsChar a = false := digit_not_ws ha
      rcases hsc with rfl | rfl <;>
        simp [p1At, haw, ha, hecd, hp1tail, digitsVal2]
    · have ha : isDigitC a = true := hds_dig a (by simp)
      have hb : isDigitC b = true := hds_dig b (by simp)
      have haw : isWsChar a = false := digit_not_ws ha
      rcases hsc with rfl | rfl <;>
        simp [p1At, haw, ha, hb, hp1tail, digitsVal2, Option.orElse]
    · simp at hds_len
  have hfind := findPat_some p1At rfl (pre ++ sc :: (ds ++ ec :: (de ++ suf))) 0
    pre.length (digitsVal2 ds) (digitsVal2 de) hmatch hp1
  unfold p1Result
  rw [hfind]
  rw [show (0 : Nat) + pre.length = pre.length from by omega]
  simp [mkRegexEpisode, List.take_left]

/-- C5 (counterexample): on the title `S 1 E 2 xS3E4` both strategies succeed
but disagree: Strategy A (the manual scan) locks onto the `S3`/`E4` markers
(the spaced `S 1` is rejected because the scan demands a digit immediately
after the `S`), while Strategy B's pattern 1 matches the spaced `S 1 E 2` at
the start of the title — so the two return different series names, seasons,
and episodes, refuting the claim. -/
theorem manual_p1_divergence :
    detect_episode_manual ("S 1 E 2 xS3E4".data) = some ⟨"S 1 E 2 x".data, 3, 4⟩ ∧
    p1Result ("S 1 E 2 xS3E4".data) = some ⟨"S 1 E 2 xS3E4".data, 1, 2⟩ ∧
    (⟨"S 1 E 2 x".data, 3, 4⟩ : Episode) ≠ ⟨"S 1 E 2 xS3E4".data, 1, 2⟩ :=
  ⟨by decide, by decide, by decide⟩

/-- C5 (amended): the two strategies are guaranteed to agree only when they
lock onto the same marker: for every title of the form
`pre ++ sc ++ ds ++ ec ++ de ++ suf` — season marker `sc` (`S`/`s`)
immediately followed by the one-or-two digits `ds`, episode marker `ec`
(`E`/`e`) immediately followed by the one-or-two digits `de`, with no
earlier manual season lock in `pre` and no earlier pattern-1 match — both
Strategy A and Strategy B's pattern 1 succeed and produce the same series
name, season, and episode. The unrestricted claim is false (see the
counterexample): the strategies can lock onto different markers. -/
theorem manual_matches_p1_when_aligned
    (pre ds de suf : List Char) (sc ec : Char)
    (hsc : sc = 'S' ∨ sc = 's') (hec : ec = 'E' ∨ ec = 'e')
    (hds_len : 1 ≤ ds.length ∧ ds.length ≤ 2)
    (hds_dig : ∀ c ∈ ds, isDigitC c = true)
    (hde_len : 1 ≤ de.length ∧ de.length ≤ 2)
    (hde_dig : ∀ c ∈ de, isDigitC c = true)
    (hde2 : de.length = 2 ∨ isDigitC (suf.headD '\x00') = false)
    (hpre : ∀ j, j < pre.length →
        ((pre ++ sc :: (ds ++ ec :: (de ++ suf))).getD j ' ' = 'S' ∨
         (pre ++ sc :: (ds ++ ec :: (de ++ suf))).getD j ' ' = 's') →
        isDigitC ((pre ++ sc :: (ds ++ ec :: (de ++ suf))).getD (j + 1) '\x00') = false)
    (hp1 : ∀ j, j < pre.length →
        p1At ((pre ++ sc :: (ds ++ ec :: (de ++ suf))).drop j) = none) :
    detect_episode_manual (pre ++ sc :: (ds ++ ec :: (de ++ suf)))
      = p1Result (pre ++ sc :: (ds ++ ec :: (de ++ suf))) ∧
    (detect_episode_manual (pre ++ sc :: (ds ++ ec :: (de ++ suf)))).isSome = true := by
  rw [manual_scan_result pre ds de suf sc ec hsc hec hds_len hds_dig hde_len hde_dig
      hde2 hpre,
    p1_scan_result pre ds de suf sc ec hsc hec hds_len hds_dig hde_len hde_dig
      hde2 hp1]
  exact ⟨rfl, rfl⟩

theorem manual_matches_p1_when_aligned_witness :
    detect_episode_manual ("Show Name ".data ++ 'S' :: (['0', '2'] ++ 'E' :: (['0', '5'] ++ [])))
      = p1Result ("Show Name ".data ++ 'S' :: (['0', '2'] ++ 'E' :: (['0', '5'] ++ []))) ∧
    (detect_episode_manual
      ("Show Name ".data ++ 'S' :: (['0', '2'] ++ 'E' :: (['0', '5'] ++ [])))).isSome = true :=
  manual_matches_p1_when_aligned ("Show Name ".data) ['0', '2'] ['0', '5'] [] 'S' 'E'
    (by decide) (by decide) (by decide) (by decide) (by decide) (by decide) (by decide)
    (by decide) (by decide)
